import Mathlib

/-
Verification development for the agent-contracts repository.

Shallow embedding of the core data model and algorithms:
  * contract/requirement model and the tri-state status reduction
    (core/datatypes/specifications/contract.py, core/verification/contract_checker.py)
  * the certification worker cache writes (certification/workers.py, certification/config.py)
  * span-tree construction and trace metadata extraction (core/datatypes/trace/trace.py)
  * execution-path extraction (core/datatypes/verification/frameworks/langchain.py)
  * the execution-path duplicate-id invariant (core/datatypes/verification/exec_path.py)
  * the NL protocol INIT retry loop (core/verification/pathconditions/utils/nl_requirement_checker.py)

External effects (judge calls, redis, kafka) are modelled by oracles and by explicit
operation lists; Python dicts are modelled as insertion-ordered association lists.
-/

set_option maxRecDepth 4000

namespace AgentContracts

/-- A JSON value, used for cache payloads and for the parsed result of the
judge state-schema string. -/
inductive Json where
  | null
  | bool (b : Bool)
  | num (n : Int)
  | str (s : String)
  | arr (xs : List Json)
  | obj (fields : List (String × Json))

/-- Keys of a JSON object (empty for non-objects). -/
def Json.objKeys : Json → List String
  | .obj fs => fs.map Prod.fst
  | _ => []

/-- First-match lookup in a JSON object, the read semantics of a Python dict
built without duplicate keys. -/
def Json.objLookup (j : Json) (k : String) : Option Json :=
  match j with
  | .obj fs => (fs.find? (fun p => p.1 == k)).map Prod.snd
  | _ => none

/-- Level enum (specifications/requirement.py): MUST or SHOULD. -/
inductive Level where
  | must
  | should
deriving DecidableEq

/-- The `type` discriminator of a requirement: the three base classes
BasePrecondition / BasePathcondition / BasePostcondition return these literals. -/
inductive RType where
  | precondition
  | pathcondition
  | postcondition
deriving DecidableEq

/-- A requirement (specifications/requirement.py): uuid, name, level, and the
`type` discriminator. The `check` coroutine and the postcondition `on` field are
abstracted away: requirement evaluation is modelled by an oracle. -/
structure Requirement where
  uuid : String
  name : String
  level : Level
  rtype : RType
deriving DecidableEq

/-- core/verification/base.py VerificationResults: satisfied plus optional
explanation and info payload (serialized via model_dump). -/
structure VerificationResults where
  satisfied : Bool
  explanation : Option String := none
  info : Option Json := none

/-- A contract (specifications/contract.py): uuid, name and an ordered
requirement list. -/
structure Contract where
  uuid : String
  name : String
  requirements : List Requirement
deriving DecidableEq

/-- Contract.__iter__: yields all preconditions, then all pathconditions, then
all postconditions, each group in storage order. -/
def Contract.iterReqs (c : Contract) : List Requirement :=
  c.requirements.filter (fun r => r.rtype == RType.precondition) ++
  c.requirements.filter (fun r => r.rtype == RType.pathcondition) ++
  c.requirements.filter (fun r => r.rtype == RType.postcondition)

/-- ContractStatus enum (contract_checker.py): INVALID (= None), SATISFIED (= True),
UNSATISFIED (= False). -/
inductive ContractStatus where
  | INVALID
  | SATISFIED
  | UNSATISFIED
deriving DecidableEq

/-- The Condition flag (contract_checker.py): a set over the three sections. -/
structure Condition where
  pre : Bool
  post : Bool
  path : Bool
deriving DecidableEq

/-- Condition.ALL = PRECONDITIONS | POSTCONDITIONS | PATHCONDITIONS. -/
def Condition.ALL : Condition := ⟨true, true, true⟩

/-- The filter used by the streaming pipeline (workers.py _verify_contract):
Condition.PATHCONDITIONS | Condition.POSTCONDITIONS. -/
def Condition.pathAndPost : Condition := ⟨false, true, true⟩

/-- Condition.matches: membership of from_string(req.type) in the flag. -/
def Condition.matches (f : Condition) (r : Requirement) : Bool :=
  match r.rtype with
  | RType.precondition => f.pre
  | RType.postcondition => f.post
  | RType.pathcondition => f.path

/-- The loop body of ContractChecker._compute_contract_status: walks the zipped
(requirement, result) pairs carrying the two accumulator booleans
`preconditions` and `musts`; SHOULD-level pairs are skipped; after each other
pair the two early returns are checked in order. -/
def computeStatusLoop : List (Requirement × VerificationResults) → Bool → Bool → ContractStatus
  | [], _, _ => ContractStatus.SATISFIED
  | (req, res) :: rest, pres, musts =>
    if req.level == Level.should then
      computeStatusLoop rest pres musts
    else
      let pres2 := if req.rtype == RType.precondition then pres && res.satisfied else pres
      let musts2 := if req.rtype == RType.precondition then musts else musts && res.satisfied
      if pres2 == false then ContractStatus.INVALID
      else if musts2 == false then ContractStatus.UNSATISFIED
      else computeStatusLoop rest pres2 musts2

/-- ContractChecker._compute_contract_status: zips the contract iteration order
with the given per-requirement results (zip truncates at the shorter list, as in
Python) and runs the reduction loop with both accumulators True. -/
def computeContractStatus (c : Contract) (results : List VerificationResults) : ContractStatus :=
  computeStatusLoop (c.iterReqs.zip results) true true

/-- Modelled from the spec (section 4.7 status derivation), for comparison with
the source reduction: INVALID if some MUST precondition pair is unsatisfied,
otherwise UNSATISFIED if some MUST path/post pair is unsatisfied, otherwise
SATISFIED; SHOULD pairs are ignored entirely. -/
def specContractStatus (pairs : List (Requirement × VerificationResults)) : ContractStatus :=
  if pairs.any (fun p => p.1.level == Level.must && p.1.rtype == RType.precondition && !p.2.satisfied) then
    ContractStatus.INVALID
  else if pairs.any (fun p => p.1.level == Level.must && !(p.1.rtype == RType.precondition) && !p.2.satisfied) then
    ContractStatus.UNSATISFIED
  else
    ContractStatus.SATISFIED

/-- The value returned by ContractChecker.check: the reduced status and the
per-requirement map, modelled as the association list the dict comprehension
builds (insertion order, no duplicate uuids in the inputs used here). -/
structure ContractVerificationResults where
  satisfied : ContractStatus
  info : List (String × VerificationResults)

/-- ContractChecker.check. `ev` is the oracle abstracting
`req.check(prepare_requirement_input(req, trace))` (the external judge call);
the evaluated group is the contract iteration filtered by the Condition flag,
and the gathered results come back in that order. Note that both the status
reduction and the info dict zip the UNFILTERED contract iteration against the
FILTERED results list, exactly as the source does. -/
def ContractChecker.check (ev : Requirement → VerificationResults) (c : Contract)
    (filt : Condition) : ContractVerificationResults :=
  let checkResults := (c.iterReqs.filter (fun r => filt.matches r)).map ev
  { satisfied := computeContractStatus c checkResults
    info := (c.iterReqs.zip checkResults).map (fun p => (p.1.uuid, p.2)) }

/-- Concrete requirement fixtures for the status-reduction witness. -/
def reqW1 : Requirement := ⟨"req-w1", "a precondition", Level.must, RType.precondition⟩

def reqW2 : Requirement := ⟨"req-w2", "a pathcondition", Level.must, RType.pathcondition⟩

def reqW3 : Requirement := ⟨"req-w3", "a postcondition", Level.should, RType.postcondition⟩

/-- A contract stored in scrambled section order; iteration reorders it. -/
def conW : Contract := ⟨"con-w", "w", [reqW3, reqW2, reqW1]⟩

def resW : List VerificationResults :=
  [{ satisfied := true }, { satisfied := false }, { satisfied := false }]

/-- Fixtures for the check misalignment: one MUST precondition and one MUST
pathcondition, checked under the streaming filter that excludes preconditions. -/
def reqP2 : Requirement := ⟨"req-p", "a precondition", Level.must, RType.precondition⟩

def reqQ2 : Requirement := ⟨"req-q", "a pathcondition", Level.must, RType.pathcondition⟩

def conC2 : Contract := ⟨"con-c2", "c2", [reqP2, reqQ2]⟩

/-- Oracle: the pathcondition fails, the precondition would succeed. -/
def evC2 : Requirement → VerificationResults := fun r =>
  if r.uuid == "req-q" then { satisfied := false, explanation := some "path requirement failed" }
  else { satisfied := true }

/-- Serialization of a VerificationResults via
model_dump(exclude_unset=True, exclude_none=True) as used by certify_span:
satisfied is always present, explanation and info only when set. -/
def VerificationResults.serialize (r : VerificationResults) : Json :=
  Json.obj ([("satisfied", Json.bool r.satisfied)] ++
    (match r.explanation with
     | some e => [("explanation", Json.str e)]
     | none => []) ++
    (match r.info with
     | some j => [("info", j)]
     | none => []))

/-- certification/config.py Settings, restricted to the fields the worker
cache writes use. Defaults: ttl = 60 * 10 seconds, key = "certificates". -/
structure Settings where
  ttl : Nat := 60 * 10
  key : String := "certificates"

/-- Settings built entirely from defaults. -/
def defaultSettings : Settings := {}

/-- A scenario (specifications/specifications.py), restricted to its contract
list. -/
structure Scenario where
  uuid : String
  contracts : List Contract

/-- The loaded specification set. -/
structure Specifications where
  scenarios : List Scenario

/-- Redis operations issued by certify_span, in issue order. -/
inductive CacheOp where
  | del (key : String)
  | setex (key : String) (ttl : Nat) (payload : Json)

/-- workers.py _active_contracts: iterates scenarios and their contracts; the
loop body evaluates `contract.preconditions`, but the specifications Contract
model (specifications/contract.py) declares only uuid, name and requirements,
and pydantic raises AttributeError for an unknown attribute, so the first
contract reached aborts the call; when every scenario has no contracts the
loops complete and the empty list is returned. -/
def activeContractsLoop : List Scenario → Except String (List Contract)
  | [] => Except.ok []
  | sc :: rest =>
    match sc.contracts with
    | [] => activeContractsLoop rest
    | _ :: _ => Except.error "AttributeError: Contract object has no attribute preconditions"

/-- Gating over the loaded specification set. -/
def activeContracts (spec : Specifications) : Except String (List Contract) :=
  activeContractsLoop spec.scenarios

/-- The per-contract value in the certify_span payload: an object holding
only the requirements map (requirement id to serialized VerificationResults). -/
def perContractValue (r : ContractVerificationResults) : Json :=
  Json.obj [("requirements", Json.obj (r.info.map (fun q => (q.1, q.2.serialize))))]

/-- workers.py certify_span payload construction: a JSON object keyed by
contract id. -/
def certifyPayload (results : List (String × ContractVerificationResults)) : Json :=
  Json.obj (results.map (fun p => (p.1, perContractValue p.2)))

/-- workers.py _check_contracts: one ContractChecker.check per active
contract under the path+post filter, keyed by contract uuid. -/
def checkContracts (ev : Requirement → VerificationResults) (cs : List Contract) :
    List (String × ContractVerificationResults) :=
  cs.map (fun c => (c.uuid, ContractChecker.check ev c Condition.pathAndPost))

/-- workers.py certify_span write step for a nonempty active set: delete the
key named by the raw kafka trace id, then setex the payload under the
exec-path trace id with the configured ttl (the two keys differ in the
source: delete uses the undecoded id, setex the hex id). -/
def certifyWriteOps (results : List (String × ContractVerificationResults))
    (kafkaTraceId execTraceId : String) (cfg : Settings) : List CacheOp :=
  [CacheOp.del (cfg.key ++ ":" ++ kafkaTraceId),
   CacheOp.setex (cfg.key ++ ":" ++ execTraceId) cfg.ttl (certifyPayload results)]

/-- workers.py certify_span from the point where the execution path exists:
gate via _active_contracts; with no active contract setex the empty JSON
object under the trace key with the configured ttl and return; otherwise run
the checks and write the payload. An exception from gating propagates and no
cache operation is performed. -/
def certifySpanOps (ev : Requirement → VerificationResults) (spec : Specifications)
    (kafkaTraceId execTraceId : String) (cfg : Settings) : Except String (List CacheOp) :=
  match activeContracts spec with
  | Except.error e => Except.error e
  | Except.ok [] =>
    Except.ok [CacheOp.setex (cfg.key ++ ":" ++ execTraceId) cfg.ttl (Json.obj [])]
  | Except.ok cs =>
    Except.ok (certifyWriteOps (checkContracts ev cs) kafkaTraceId execTraceId cfg)

/-- Fixture: a one-requirement contract for the gating crash. -/
def conX : Contract :=
  ⟨"con-x", "x", [⟨"req-x1", "a precondition", Level.must, RType.precondition⟩]⟩

/-- Fixture: a specification set with one scenario holding one contract. -/
def specOne : Specifications := ⟨[⟨"scene-1", [conX]⟩]⟩

/-- Fixture: a specification set whose single scenario has no contracts. -/
def specEmpty : Specifications := ⟨[⟨"scene-0", []⟩]⟩

/-- Oracle that satisfies every requirement. -/
def evTrue : Requirement → VerificationResults := fun _ => { satisfied := true }

/-- Fixture: a per-contract result map used for the certificate payload. -/
def resC3 : ContractVerificationResults :=
  { satisfied := ContractStatus.SATISFIED
    info := [("req-x", { satisfied := true, explanation := some "ok" })] }

/-- A raw span record as consumed by Trace._build and Trace._analyze (the
dictionary produced by _preprocess_spans, plus the optional scope entry used
by the second _analyze pass). Attribute values are represented by their
decoded value; the typed-wrapper unwrapping of attribute_value is outside the
modeled claims. -/
structure RawSpan where
  spanID : String
  parentSpanID : Option String := none
  name : String := ""
  kind : String := ""
  attributes : List (String × String) := []
  resourceAttributes : List (String × String) := []
  scope : Option String := none
  startTime : Nat := 0
  endTime : Nat := 0
deriving DecidableEq

/-- The span ids of a raw span list, in order. -/
def idsOf (tr : List RawSpan) : List String := tr.map (fun s => s.spanID)

/-- find_attribute followed by attribute_value: the value of the first pair
carrying the key. -/
def getAttr (attrs : List (String × String)) (key : String) : Option String :=
  (attrs.find? (fun p => p.1 == key)).map Prod.snd

/-- Stable insertion into a start-time-sorted list: the new record goes in
front of the first record with an equal or later start, so records with equal
starts keep their input order, as Python sorted guarantees. -/
def insertByStart (s : RawSpan) : List RawSpan → List RawSpan
  | [] => [s]
  | t :: ts => if s.startTime ≤ t.startTime then s :: t :: ts else t :: insertByStart s ts

/-- sorted(trace_data, key=startTime): stable sort by start time. -/
def sortByStart : List RawSpan → List RawSpan
  | [] => []
  | s :: ss => insertByStart s (sortByStart ss)

/-- The per-span node data stored in the Trace._build nodes dictionary (the
Span constructor arguments; the _post_init kind/attribute normalization does
not affect tree shape and is not modeled). -/
structure NodeData where
  spanId : String
  name : String
  kind : String
  attributes : List (String × String)
  startTime : Nat
  endTime : Nat
deriving DecidableEq

/-- The node built from one raw record. -/
def initNode (s : RawSpan) : NodeData :=
  ⟨s.spanID, s.name, s.kind, s.attributes, s.startTime, s.endTime⟩

/-- Update of a Python dict modelled as an insertion-ordered association
list with unique keys: an existing key keeps its position and takes the new
value, a new key is appended at the end. -/
def dictInsert {α : Type} : List (String × α) → String → α → List (String × α)
  | [], k, v => [(k, v)]
  | p :: ps, k, v => if p.1 == k then (k, v) :: ps else p :: dictInsert ps k v

/-- Reading a Python dict modelled as an association list. -/
def dictLookup {α : Type} : List (String × α) → String → Option α
  | [], _ => none
  | p :: ps, k => if p.1 == k then some p.2 else dictLookup ps k

/-- The keys of an association list, in order. -/
def dictKeys {α : Type} (m : List (String × α)) : List String := m.map Prod.fst

/-- The last element satisfying the predicate, when one exists. -/
def findLast? {α : Type} (p : α → Bool) : List α → Option α
  | [] => none
  | x :: xs =>
    match findLast? p xs with
    | some y => some y
    | none => if p x then some x else none

/-- Trace._build nodes dictionary: span id to node, filled over the
start-time-sorted records; a duplicate id overwrites the stored node while
keeping its first insertion position, exactly as the Python dict
comprehension does. -/
def buildNodes (tr : List RawSpan) : List (String × NodeData) :=
  (sortByStart tr).foldl (fun m s => dictInsert m s.spanID (initNode s)) []

/-- Membership of an id among the nodes dictionary keys
(`parent_span_id in nodes`). -/
def hasNodeId (tr : List RawSpan) (k : String) : Bool :=
  (buildNodes tr).any (fun p => p.1 == k)

/-- The parent Trace._build resolves for one record: present iff the declared
parentSpanID is truthy (Python: not None and not the empty string) and names
a known node id. -/
def knownParent (tr : List RawSpan) (s : RawSpan) : Option String :=
  match s.parentSpanID with
  | none => none
  | some p => if !(p == "") && hasNodeId tr p then some p else none

/-- Trace._build parent loop: walks the sorted records and assigns the node
named by each record its resolved parent; with duplicate ids the last record
that passes the truthy-and-known check wins. -/
def parentAssignments (tr : List RawSpan) : List (String × String) :=
  (sortByStart tr).foldl
    (fun pm s =>
      match knownParent tr s with
      | some p => dictInsert pm s.spanID p
      | none => pm) []

/-- The roots Trace._build returns: the nodes, in dictionary order, that the
parent loop never assigned a parent. -/
def buildRoots (tr : List RawSpan) : List NodeData :=
  ((buildNodes tr).filter
    (fun p => !(parentAssignments tr).any (fun q => q.1 == p.1))).map Prod.snd

/-- The outcome of Trace._find_root: which node ends up as the tree root and
whether it is a synthesized virtual root, with its time span. -/
structure RootResult where
  rootId : String
  isVirtual : Bool
  startTime : Nat
  endTime : Nat
deriving DecidableEq

/-- Trace._find_root: with more than one root a virtual root is synthesized
(its 16-hex-digit id is drawn at random in the source and supplied here as
freshId) spanning the minimum start and maximum end over the roots, and the
roots are reparented under it; with exactly one root that root is returned;
with no root the roots[0] subscript raises IndexError, modelled as none. -/
def findRoot (tr : List RawSpan) (freshId : String) : Option RootResult :=
  let roots := buildRoots tr
  if 1 < roots.length then
    match roots with
    | [] => none
    | r :: rs =>
      some ⟨freshId, true,
        rs.foldl (fun a n => min a n.startTime) r.startTime,
        rs.foldl (fun a n => max a n.endTime) r.endTime⟩
  else
    match roots with
    | [] => none
    | r :: _ => some ⟨r.spanId, false, r.startTime, r.endTime⟩

/-- The parent of a span in the finished tree: the assignment made by the
build loop, or the virtual root when one was synthesized and the span was
one of the reparented build roots. -/
def finalParent (tr : List RawSpan) (freshId : String) (sid : String) : Option String :=
  match dictLookup (parentAssignments tr) sid with
  | some p => some p
  | none =>
    if 1 < (buildRoots tr).length ∧ (buildRoots tr).any (fun n => n.spanId == sid) = true then
      some freshId
    else none

/-- Fixture: two records sharing the span id "a" (for the duplicate-id
behavior of Trace._build). -/
def dupA : RawSpan := { spanID := "a", name := "first", startTime := 0, endTime := 10 }

/-- Fixture: the later duplicate record. -/
def dupB : RawSpan := { spanID := "a", name := "second", startTime := 5, endTime := 9 }

/-- Fixture: a parentless span (scenario A of the spec). -/
def spanA : RawSpan := { spanID := "aaaa", startTime := 0, endTime := 100 }

/-- Fixture: a child span declaring spanA as parent. -/
def spanB : RawSpan :=
  { spanID := "bbbb", parentSpanID := some "aaaa", startTime := 10, endTime := 90 }

/-- Framework enum (trace/common.py). -/
inductive Framework where
  | CREWAI
  | LANGCHAIN
  | UNKNOWN
deriving DecidableEq

/-- Containment of a character sequence inside another (the Python `in`
operator on strings): the pattern is a prefix of some suffix. -/
def listContainsSub (p : List Char) : List Char → Bool
  | [] => p.isEmpty
  | c :: cs => p.isPrefixOf (c :: cs) || listContainsSub p cs

/-- Framework.from_name: substring heuristics over an instrumentation-scope
name; crewai is tested before langchain; a missing name gives UNKNOWN. -/
def Framework.fromName (name : Option String) : Framework :=
  match name with
  | none => Framework.UNKNOWN
  | some n =>
    if listContainsSub "crewai".toList n.toList then Framework.CREWAI
    else if listContainsSub "langchain".toList n.toList then Framework.LANGCHAIN
    else Framework.UNKNOWN

/-- semcov.py ResourceAttributes.PROJECT_NAME. -/
def PROJECT_NAME_KEY : String := "openinference.project.name"

/-- semcov.py ResourceAttributes.RUN_ID. -/
def RUN_ID_KEY : String := "relari.eval.run.id"

/-- semcov.py EvalAttributes.SPECIFICATIONS_ID. -/
def SPECIFICATIONS_ID_KEY : String := "relari.eval.dataset.id"

/-- semcov.py EvalAttributes.SCENARIO_ID. -/
def SCENARIO_ID_KEY : String := "relari.eval.scenario.id"

/-- The scope-name attribute key used by the first-pass heuristic. -/
def SCOPE_NAME_KEY : String := "otel.scope.name"

/-- semcov.py OpeninferenceInstrumentators.CREWAI. -/
def CREWAI_INSTRUMENTATOR : String := "openinference.instrumentation.crewai"

/-- semcov.py OpeninferenceInstrumentators.LANGCHAIN. -/
def LANGCHAIN_INSTRUMENTATOR : String := "openinference.instrumentation.langchain"

/-- The TraceInfo fields the _analyze scan fills (start_time and duration are
assigned after the scans and are outside the modeled claims). -/
structure TraceInfo where
  framework : Framework := Framework.UNKNOWN
  projectName : Option String := none
  runId : Option String := none
  specificationsId : Option String := none
  scenarioId : Option String := none
deriving DecidableEq

/-- Python truthiness of an optional string (None and the empty string are
falsy). -/
def truthyOpt : Option String → Bool
  | none => false
  | some s => !(s == "")

/-- The Python expression `a or b` over optional strings. -/
def pyOr (a b : Option String) : Option String := if truthyOpt a then a else b

/-- One iteration of the first _analyze loop: each id field is updated with
`field or get_attribute_value(...)`, and the framework guess is overwritten
whenever the scope-name heuristic yields a known framework. -/
def analyzeStep (info : TraceInfo) (s : RawSpan) : TraceInfo :=
  let info1 : TraceInfo := { info with
    projectName := pyOr info.projectName (getAttr s.resourceAttributes PROJECT_NAME_KEY)
    runId := pyOr info.runId (getAttr s.resourceAttributes RUN_ID_KEY)
    specificationsId := pyOr info.specificationsId (getAttr s.attributes SPECIFICATIONS_ID_KEY)
    scenarioId := pyOr info.scenarioId (getAttr s.attributes SCENARIO_ID_KEY) }
  let fw := Framework.fromName (getAttr s.attributes SCOPE_NAME_KEY)
  if fw ≠ Framework.UNKNOWN then { info1 with framework := fw } else info1

/-- TraceInfo.is_complete: the four id fields are set. The Python property
also tests `framework is not None`, which is always true because framework is
initialized to UNKNOWN, never None. -/
def TraceInfo.isComplete (info : TraceInfo) : Bool :=
  info.projectName.isSome && info.runId.isSome &&
    info.scenarioId.isSome && info.specificationsId.isSome

/-- The first _analyze loop: scan forward, update, break once complete. -/
def analyzeLoop : TraceInfo → List RawSpan → TraceInfo
  | info, [] => info
  | info, s :: rest =>
    let info2 := analyzeStep info s
    if info2.isComplete then info2 else analyzeLoop info2 rest

/-- The spans the first loop actually processes (up to and including the span
at which it breaks). -/
def scannedSpans : TraceInfo → List RawSpan → List RawSpan
  | _, [] => []
  | info, s :: rest =>
    let info2 := analyzeStep info s
    s :: (if info2.isComplete then [] else scannedSpans info2 rest)

/-- The second _analyze pass: the first span carrying a scope entry whose
name is exactly the CrewAI or LangChain instrumentator id decides the
framework and stops the pass; other scope names are skipped. -/
def secondPassFw : List RawSpan → Option Framework
  | [] => none
  | s :: rest =>
    match s.scope with
    | some scname =>
      if scname == CREWAI_INSTRUMENTATOR then some Framework.CREWAI
      else if scname == LANGCHAIN_INSTRUMENTATOR then some Framework.LANGCHAIN
      else secondPassFw rest
    | none => secondPassFw rest

/-- Trace._analyze, restricted to the scan results: first loop then the
second-pass override. (The trailing `info.framework or UNKNOWN` is the
identity: enum members are truthy in Python.) -/
def analyze (tr : List RawSpan) : TraceInfo :=
  let info1 := analyzeLoop {} tr
  match secondPassFw tr with
  | some fw => { info1 with framework := fw }
  | none => info1

/-- The overwrite step for the framework guess, folded over the scanned
spans: the last known heuristic wins. -/
def guessStep (acc : Framework) (s : RawSpan) : Framework :=
  let fw := Framework.fromName (getAttr s.attributes SCOPE_NAME_KEY)
  if fw ≠ Framework.UNKNOWN then fw else acc

/-- The last-wins framework guess over a span list. -/
def lastGuess (l : List RawSpan) : Framework :=
  l.foldl guessStep Framework.UNKNOWN

/-- Modelled from the spec (section 4.3, first-wins per field including the
framework guess): the first known framework heuristic in scan order — the
reading the claim asserts, used for comparison against the source scan. -/
def firstFrameworkGuess (l : List RawSpan) : Option Framework :=
  l.findSome? (fun s =>
    let fw := Framework.fromName (getAttr s.attributes SCOPE_NAME_KEY)
    if fw ≠ Framework.UNKNOWN then some fw else none)

/-- An optional attribute value that is not the empty string (so that Python
truthiness and option-presence agree). -/
def cleanOptB : Option String → Bool
  | none => true
  | some v => !(v == "")

/-- Fixture: a span whose scope-name heuristic says langchain and which
carries none of the four id fields. -/
def ex8a : RawSpan := { spanID := "s1", attributes := [("otel.scope.name", "langchain-core")] }

/-- Fixture: a later span whose heuristic says crewai and which completes all
four id fields. -/
def ex8b : RawSpan :=
  { spanID := "s2"
    attributes := [("otel.scope.name", "crewai.tracer"),
      ("relari.eval.dataset.id", "spec-1"), ("relari.eval.scenario.id", "scene-1")]
    resourceAttributes := [("openinference.project.name", "proj"),
      ("relari.eval.run.id", "run-1")] }

/-- A node of the built span tree: the fields the extractor reads plus the
owned children (anytree parent links are the inverse of this shape). -/
inductive SpanNode where
  | node (spanId : String) (name : String) (attributes : List (String × String))
      (children : List SpanNode)

/-- The span id of a tree node. -/
def SpanNode.spanId : SpanNode → String
  | .node i _ _ _ => i

/-- The name of a tree node. -/
def SpanNode.name : SpanNode → String
  | .node _ n _ _ => n

/-- The attributes of a tree node. -/
def SpanNode.attributes : SpanNode → List (String × String)
  | .node _ _ a _ => a

/-- The children of a tree node. -/
def SpanNode.children : SpanNode → List SpanNode
  | .node _ _ _ c => c

/-- langchain.py IGNORED_NODES. -/
def IGNORED_NODES : List String :=
  ["__start__", "__end__", "_write", "RunnableSequence", "ChatPromptTemplate",
   "PydanticToolsParser", "StateModifier", "call_model", "Unnamed",
   "should_continue", "Prompt"]

/-- langchain.py should_include_node. -/
def shouldIncludeNode (n : SpanNode) : Bool := !(IGNORED_NODES.contains n.name)

mutual

/-- The proper descendants of a node in preorder (anytree descendants). -/
def descendantsOf : SpanNode → List SpanNode
  | .node _ _ _ cs => descendantsList cs

/-- Preorder traversal of a forest, each node before its descendants. -/
def descendantsList : List SpanNode → List SpanNode
  | [] => []
  | c :: rest => c :: descendantsOf c ++ descendantsList rest

end

/-- An extracted action record. -/
structure ActionR where
  spanId : String
  name : String
  info : List (String × String)

/-- An extracted state record. -/
structure StateR where
  spanId : String
  name : String
  info : List (String × String)
  actions : List ActionR

/-- langchain.py get_all_leaves: the non-ignored leaves among the proper
descendants of a span, in preorder, as action records. -/
def get_all_leaves (span : SpanNode) : List ActionR :=
  (descendantsOf span).filterMap (fun d =>
    if shouldIncludeNode d then
      if d.children.isEmpty then some ⟨d.spanId, d.name, d.attributes⟩ else none
    else none)

/-- enumerate(nodes, 1): pair each element with its 1-based position. -/
def enumFrom : Nat → List SpanNode → List (Nat × SpanNode)
  | _, [] => []
  | n, x :: xs => (n, x) :: enumFrom (n + 1) xs

/-- The state record built from one child of a LangGraph node; with several
LangGraph nodes the turn number is appended to the state name. -/
def stateOfSpan (addTurn : Bool) (turn : Nat) (c : SpanNode) : StateR :=
  { spanId := c.spanId
    name := if addTurn then c.name ++ " (turn " ++ toString turn ++ ")" else c.name
    info := c.attributes
    actions := get_all_leaves c }

/-- The inner loop of exec_path_from_trace over the children of one
LangGraph node: ignored children are skipped, and a state with no actions is
not appended. -/
def statesOfLangGraph (addTurn : Bool) (turn : Nat) : List SpanNode → List StateR
  | [] => []
  | c :: rest =>
    if shouldIncludeNode c then
      if (get_all_leaves c).isEmpty then statesOfLangGraph addTurn turn rest
      else stateOfSpan addTurn turn c :: statesOfLangGraph addTurn turn rest
    else statesOfLangGraph addTurn turn rest

/-- The outer loop of exec_path_from_trace over the enumerated LangGraph
nodes. -/
def processLangGraphs (addTurn : Bool) : List (Nat × SpanNode) → List StateR
  | [] => []
  | (turn, node) :: rest =>
    statesOfLangGraph addTurn turn node.children ++ processLangGraphs addTurn rest

/-- langchain.py exec_path_from_trace: states come exclusively from the
children of the depth-one nodes named LangGraph; turn numbers are added when
more than one LangGraph node exists. -/
def exec_path_from_trace (root : SpanNode) : List StateR :=
  let lgs := root.children.filter (fun n => n.name == "LangGraph")
  processLangGraphs (decide (1 < lgs.length)) (enumFrom 1 lgs)

mutual

/-- Modelled from the spec (section 4.4 default strategy): collect the nodes
chosen as States — a node qualifies iff its name is not ignored and no strict
ancestor was already chosen. The spec resolves ties by level order; the
chosen set is order-independent, and this traversal lists it depth-first. -/
def specChosen (underChosen : Bool) : SpanNode → List SpanNode
  | SpanNode.node i nm a cs =>
    if !underChosen && shouldIncludeNode (SpanNode.node i nm a cs) then
      SpanNode.node i nm a cs :: specChosenList true cs
    else specChosenList underChosen cs

/-- The chosen-state collection over a forest. -/
def specChosenList (underChosen : Bool) : List SpanNode → List SpanNode
  | [] => []
  | c :: rest => specChosen underChosen c ++ specChosenList underChosen rest

end

/-- Modelled from the spec: the extraction the claim describes — chosen
nodes become states with their non-ignored leaf descendants as actions, and
states with no actions are dropped. -/
def specExtract (root : SpanNode) : List StateR :=
  (specChosen false root).filterMap (fun n =>
    let acts := get_all_leaves n
    if acts.isEmpty then none
    else some ⟨n.spanId, n.name, n.attributes, acts⟩)

/-- Fixture: a leaf tool node. -/
def leafTool : SpanNode := SpanNode.node "t1" "tool" [] []

/-- Fixture: an intermediate node holding the leaf. -/
def planNode : SpanNode := SpanNode.node "p1" "plan" [] [leafTool]

/-- Fixture: a root with no LangGraph child. -/
def rootEx7 : SpanNode := SpanNode.node "r1" "agent" [] [planNode]

/-- Fixture: a leaf under a LangGraph state. -/
def lgLeaf : SpanNode := SpanNode.node "l1" "toolrun" [] []

/-- Fixture: a state-candidate child of the LangGraph node. -/
def lgState : SpanNode := SpanNode.node "c1" "agent" [] [lgLeaf]

/-- Fixture: a depth-one LangGraph node. -/
def lgNode : SpanNode := SpanNode.node "g1" "LangGraph" [] [lgState]

/-- Fixture: a root with one LangGraph child. -/
def rootLG : SpanNode := SpanNode.node "r0" "root" [] [lgNode]

/-- exec_path.py Action, restricted to the fields the duplicate-id invariant
reads. -/
structure EPAction where
  spanId : String
  name : String
deriving DecidableEq

/-- exec_path.py State: span id, name, ordered actions. -/
structure EPState where
  spanId : String
  name : String
  actions : List EPAction
deriving DecidableEq

/-- exec_path.py ExecutionPath: trace id and ordered states. -/
structure ExecutionPath where
  traceId : String
  states : List EPState
deriving DecidableEq

/-- The span ids collected by ExecutionPath.model_post_init: all state ids,
then all action ids in state order. -/
def execPathSpanIds (states : List EPState) : List String :=
  states.map (fun s => s.spanId) ++
    states.flatMap (fun s => s.actions.map (fun a => a.spanId))

/-- ExecutionPath construction: pydantic runs model_post_init on every
construction; it compares the distinct-id count (len(set(span_ids))) with
the id count and raises ValueError on mismatch, so a value is produced only
when the ids are duplicate-free. -/
def mkExecutionPath (traceId : String) (states : List EPState) : Except String ExecutionPath :=
  if (execPathSpanIds states).dedup.length = (execPathSpanIds states).length then
    Except.ok ⟨traceId, states⟩
  else Except.error "Duplicate span IDs in execution fragment"

/-- Fixture: a state whose action reuses the state span id. -/
def dupStates : List EPState := [⟨"x", "s1", [⟨"x", "a1"⟩]⟩]

/-- A judge response to the NL INIT prompt, represented by the parsed value
of its state_schema string (json_repair.loads does not raise on strings; the
dead JSONDecodeError branch would produce the empty object, covered by
Json.obj []). -/
structure SchemaResponse where
  reasoning : String := ""
  stateSchema : Json
  instructions : String := ""
  successCondition : String := ""
  earlyTermination : String := ""

/-- Python truthiness of a parsed JSON value (`if parsed_schema:`). -/
def Json.truthy : Json → Bool
  | Json.null => false
  | Json.bool b => b
  | Json.num n => !(n == 0)
  | Json.str s => !(s == "")
  | Json.arr xs => !xs.isEmpty
  | Json.obj fs => !fs.isEmpty

/-- The spec reading for the INIT acceptance test: a non-empty JSON
object. -/
def Json.isNonEmptyObject : Json → Bool
  | Json.obj fs => !fs.isEmpty
  | _ => false

/-- NLRequirementChecker.init retry loop (identical in
pathconditions/utils/nl_requirement_checker.py and
nl/nl_requirement_checker.py), over the stream of judge responses modelled
as a list consumed in order: request again until the parsed schema value is
truthy; the result pairs the number of rejected responses with the accepted
response, whose fields the init method then stores; none models a stream
exhausted without acceptance (the loop would keep waiting — it never
substitutes a default). -/
def initLoop : List SchemaResponse → Option (Nat × SchemaResponse)
  | [] => none
  | r :: rest =>
    if r.stateSchema.truthy then some (0, r)
    else (initLoop rest).map (fun p => (p.1 + 1, p.2))

/-- Fixture: a response whose schema string parses to the number 5. -/
def respNum : SchemaResponse := { stateSchema := Json.num 5 }

/-- Fixture: a response with an empty-object schema ("{}"). -/
def emptyResp : SchemaResponse := { stateSchema := Json.obj [] }

/-- Fixture: a response with a valid non-empty object schema. -/
def validResp : SchemaResponse := { stateSchema := Json.obj [("status", Json.str "str")] }

/-! ## Theorems -/

/-- Reduction of the status loop over a leading segment made of precondition
pairs: an unsatisfied MUST precondition short-circuits to INVALID, otherwise
the loop proceeds to the remaining pairs with both accumulators still True. -/
theorem computeStatusLoop_pre_segment (A B : List (Requirement × VerificationResults))
    (hA : ∀ p ∈ A, p.1.rtype = RType.precondition) :
    computeStatusLoop (A ++ B) true true =
      if A.any (fun p => p.1.level == Level.must && p.1.rtype == RType.precondition && !p.2.satisfied) then
        ContractStatus.INVALID
      else computeStatusLoop B true true := by
  induction A with
  | nil => simp
  | cons p t ih =>
    obtain ⟨req, res⟩ := p
    have hr : req.rtype = RType.precondition := hA (req, res) (by simp)
    have ht : ∀ q ∈ t, q.1.rtype = RType.precondition := fun q hq => hA q (by simp [hq])
    rw [List.cons_append, List.any_cons]
    dsimp only
    cases hl : req.level with
    | should =>
      have hstep : computeStatusLoop ((req, res) :: (t ++ B)) true true
          = computeStatusLoop (t ++ B) true true := by
        simp [computeStatusLoop, hl]
      rw [hstep, ih ht]
      simp only [show (Level.should == Level.must) = false from rfl, Bool.false_and,
        Bool.false_or]
    | must =>
      cases hsat : res.satisfied with
      | false =>
        have hstep : computeStatusLoop ((req, res) :: (t ++ B)) true true
            = ContractStatus.INVALID := by
          simp [computeStatusLoop, hl, hr, hsat]
        rw [hstep, hr]
        simp only [show (Level.must == Level.must) = true from rfl,
          show (RType.precondition == RType.precondition) = true from rfl,
          Bool.true_and, Bool.not_false, Bool.true_or]
        rfl
      | true =>
        have hstep : computeStatusLoop ((req, res) :: (t ++ B)) true true
            = computeStatusLoop (t ++ B) true true := by
          simp [computeStatusLoop, hl, hr, hsat]
        rw [hstep, ih ht, hr]
        simp only [show (Level.must == Level.must) = true from rfl,
          show (RType.precondition == RType.precondition) = true from rfl,
          Bool.true_and, Bool.not_true, Bool.and_false, Bool.false_or]

/-- Reduction of the status loop over a segment with no precondition pairs:
an unsatisfied MUST pair short-circuits to UNSATISFIED, otherwise SATISFIED. -/
theorem computeStatusLoop_nonpre_segment (B : List (Requirement × VerificationResults))
    (hB : ∀ p ∈ B, p.1.rtype ≠ RType.precondition) :
    computeStatusLoop B true true =
      if B.any (fun p => p.1.level == Level.must && !(p.1.rtype == RType.precondition) && !p.2.satisfied) then
        ContractStatus.UNSATISFIED
      else ContractStatus.SATISFIED := by
  induction B with
  | nil => simp [computeStatusLoop]
  | cons p t ih =>
    obtain ⟨req, res⟩ := p
    have hr : req.rtype ≠ RType.precondition := hB (req, res) (by simp)
    have ht : ∀ q ∈ t, q.1.rtype ≠ RType.precondition := fun q hq => hB q (by simp [hq])
    have hr2 : (req.rtype == RType.precondition) = false := by
      cases h2 : req.rtype <;> simp_all
    rw [List.any_cons]
    dsimp only
    cases hl : req.level with
    | should =>
      have hstep : computeStatusLoop ((req, res) :: t) true true
          = computeStatusLoop t true true := by
        simp [computeStatusLoop, hl]
      rw [hstep, ih ht]
      simp only [show (Level.should == Level.must) = false from rfl, Bool.false_and,
        Bool.false_or]
    | must =>
      cases hsat : res.satisfied with
      | false =>
        have hstep : computeStatusLoop ((req, res) :: t) true true
            = ContractStatus.UNSATISFIED := by
          simp [computeStatusLoop, hl, hr2, hsat]
        rw [hstep, hr2]
        simp only [show (Level.must == Level.must) = true from rfl,
          Bool.not_false, Bool.true_and, Bool.true_or]
        rfl
      | true =>
        have hstep : computeStatusLoop ((req, res) :: t) true true
            = computeStatusLoop t true true := by
          simp [computeStatusLoop, hl, hr2, hsat]
        rw [hstep, ih ht, hr2]
        simp only [show (Level.must == Level.must) = true from rfl,
          Bool.not_false, Bool.true_and, Bool.not_true, Bool.and_false, Bool.false_or]

/-- C1: for every contract and every aligned list of per-requirement results,
scanned in the fixed precondition, pathcondition, postcondition iteration
order, the derived status equals the spec reduction: INVALID if some MUST
precondition is unsatisfied, otherwise UNSATISFIED if some MUST path- or
postcondition is unsatisfied, otherwise SATISFIED; SHOULD-level results are
ignored by the right-hand side, so they never affect the status. -/
theorem computeContractStatus_characterization (c : Contract)
    (results : List VerificationResults) (h : results.length = c.iterReqs.length) :
    computeContractStatus c results = specContractStatus (c.iterReqs.zip results) := by
  classical
  set pres := c.requirements.filter (fun r => r.rtype == RType.precondition) with hpres
  set rest := c.requirements.filter (fun r => r.rtype == RType.pathcondition) ++
      c.requirements.filter (fun r => r.rtype == RType.postcondition) with hrest
  have hiter : c.iterReqs = pres ++ rest := by
    simp [Contract.iterReqs, hpres, hrest]
  have hlen : pres.length ≤ results.length := by
    rw [h, hiter, List.length_append]
    exact Nat.le_add_right _ _
  have htake : pres.length = (results.take pres.length).length := by
    rw [List.length_take]
    exact (Nat.min_eq_left hlen).symm
  have hzip : (pres ++ rest).zip results =
      pres.zip (results.take pres.length) ++ rest.zip (results.drop pres.length) := by
    conv_lhs => rw [← List.take_append_drop pres.length results]
    exact List.zip_append htake
  have hA : ∀ p ∈ pres.zip (results.take pres.length), p.1.rtype = RType.precondition := by
    intro p hp
    have h1 : p.1 ∈ pres := (List.of_mem_zip hp).1
    have h2 := List.of_mem_filter h1
    exact by simpa using h2
  have hB : ∀ p ∈ rest.zip (results.drop pres.length), p.1.rtype ≠ RType.precondition := by
    intro p hp
    have h1 : p.1 ∈ rest := (List.of_mem_zip hp).1
    rcases List.mem_append.mp h1 with h2 | h2
    · have h3 := List.of_mem_filter h2
      have h4 : p.1.rtype = RType.pathcondition := by simpa using h3
      simp [h4]
    · have h3 := List.of_mem_filter h2
      have h4 : p.1.rtype = RType.postcondition := by simpa using h3
      simp [h4]
  have hAfalse : (rest.zip (results.drop pres.length)).any
      (fun p => p.1.level == Level.must && p.1.rtype == RType.precondition && !p.2.satisfied) = false := by
    rw [List.any_eq_false]
    intro p hp
    have h5 : (p.1.rtype == RType.precondition) = false := by
      cases h6 : p.1.rtype
      · exact absurd h6 (hB p hp)
      · rfl
      · rfl
    simp [h5]
  have hBfalse : (pres.zip (results.take pres.length)).any
      (fun p => p.1.level == Level.must && !(p.1.rtype == RType.precondition) && !p.2.satisfied) = false := by
    rw [List.any_eq_false]
    intro p hp
    have h5 : (p.1.rtype == RType.precondition) = true := by
      rw [hA p hp]
      rfl
    simp [h5]
  rw [computeContractStatus, hiter, hzip, computeStatusLoop_pre_segment _ _ hA]
  unfold specContractStatus
  rw [List.any_append, List.any_append, hAfalse, hBfalse]
  simp only [Bool.or_false, Bool.false_or]
  by_cases hbad : (pres.zip (results.take pres.length)).any
      (fun p => p.1.level == Level.must && p.1.rtype == RType.precondition && !p.2.satisfied) = true
  · rw [if_pos hbad, if_pos hbad]
  · simp only [Bool.not_eq_true] at hbad
    rw [hbad, if_neg Bool.false_ne_true, if_neg Bool.false_ne_true]
    exact computeStatusLoop_nonpre_segment _ hB

/-- Witness for the C1 characterization at a concrete contract and result
list: a satisfied MUST precondition, a failed MUST pathcondition and a failed
SHOULD postcondition reduce to UNSATISFIED on both sides. -/
theorem computeContractStatus_characterization_witness :
    resW.length = conW.iterReqs.length ∧
      computeContractStatus conW resW = specContractStatus (conW.iterReqs.zip resW) :=
  ⟨by decide, computeContractStatus_characterization conW resW (by decide)⟩

/-- C2: failing input for ContractChecker.check with the streaming filter
(pathconditions and postconditions only) on a contract holding one MUST
precondition and one MUST pathcondition. Exactly the pathcondition is
evaluated, yet the returned map binds the precondition uuid to the
pathcondition result, the evaluated pathcondition uuid is absent, and the
status reduction consumes the pathcondition result as if it belonged to the
precondition, yielding INVALID. -/
theorem check_misaligns_filtered_results :
    (conC2.iterReqs.filter (fun r => Condition.pathAndPost.matches r) = [reqQ2]) ∧
    ((ContractChecker.check evC2 conC2 Condition.pathAndPost).info = [("req-p", evC2 reqQ2)]) ∧
    (((ContractChecker.check evC2 conC2 Condition.pathAndPost).info).lookup "req-q" = none) ∧
    ((ContractChecker.check evC2 conC2 Condition.pathAndPost).satisfied = ContractStatus.INVALID) :=
  ⟨rfl, rfl, rfl, rfl⟩

/-- Lookup in a JSON object built by mapping a value transformer over a
key-value list with distinct keys returns the transformed value of the listed
entry. -/
theorem objLookup_map_entries (l : List (String × ContractVerificationResults))
    (g : ContractVerificationResults → Json) (hk : (l.map Prod.fst).Nodup)
    (cid : String) (res : ContractVerificationResults) (hmem : (cid, res) ∈ l) :
    (Json.obj (l.map (fun p => (p.1, g p.2)))).objLookup cid = some (g res) := by
  induction l with
  | nil => cases hmem
  | cons hd tl ih =>
    rw [List.map_cons, List.nodup_cons] at hk
    by_cases hh : hd.1 = cid
    · have hres : hd.2 = res := by
        rcases List.mem_cons.mp hmem with h1 | h1
        · rw [← h1]
        · exact absurd (by simpa [hh] using List.mem_map_of_mem Prod.fst h1) hk.1
      simp [Json.objLookup, List.find?_cons, hh, hres]
    · have htl : (cid, res) ∈ tl := by
        rcases List.mem_cons.mp hmem with h1 | h1
        · exact absurd (congrArg Prod.fst h1.symm) hh
        · exact h1
      have h2 : (hd.1 == cid) = false := by
        exact beq_eq_false_iff_ne.mpr hh
      have ih2 := ih hk.2 htl
      simpa [Json.objLookup, List.find?_cons, h2] using ih2

/-- C3: counterexample — at a concrete one-contract result map, the object the
worker stores under the contract id has exactly the key list ["requirements"];
looking up a status field yields nothing, refuting the claim that the
per-contract value also carries a status field. -/
theorem certifyPayload_has_no_status_field :
    ((certifyPayload [("con-1", resC3)]).objLookup "con-1").map Json.objKeys =
      some ["requirements"] ∧
    ((certifyPayload [("con-1", resC3)]).objLookup "con-1").bind
      (fun j => j.objLookup "status") = none :=
  ⟨rfl, rfl⟩

/-- C3 amended: for every per-contract result list with distinct contract ids,
the write step issues a setex at the configured key prefix joined with the
trace id and the configured ttl; the stored JSON object maps each contract id
to an object holding only the serialized requirements map (no status field);
the default settings give ttl 600 seconds and key prefix "certificates". -/
theorem certifyWriteOps_characterization
    (results : List (String × ContractVerificationResults))
    (kid tid : String) (cfg : Settings)
    (hk : (results.map Prod.fst).Nodup)
    (cid : String) (res : ContractVerificationResults) (hmem : (cid, res) ∈ results) :
    certifyWriteOps results kid tid cfg =
      [CacheOp.del (cfg.key ++ ":" ++ kid),
       CacheOp.setex (cfg.key ++ ":" ++ tid) cfg.ttl (certifyPayload results)] ∧
    (certifyPayload results).objLookup cid = some (perContractValue res) ∧
    ((certifyPayload results).objLookup cid).map Json.objKeys = some ["requirements"] ∧
    defaultSettings.ttl = 600 ∧ defaultSettings.key = "certificates" := by
  refine ⟨rfl, ?_, ?_, rfl, rfl⟩
  · exact objLookup_map_entries results perContractValue hk cid res hmem
  · have h2 : (certifyPayload results).objLookup cid = some (perContractValue res) :=
      objLookup_map_entries results perContractValue hk cid res hmem
    rw [h2]
    rfl

/-- Witness for the amended C3 characterization at the concrete one-contract
result map. -/
theorem certifyWriteOps_characterization_witness :
    ([("con-1", resC3)].map Prod.fst).Nodup ∧
    (("con-1", resC3) ∈ [("con-1", resC3)]) ∧
    (certifyWriteOps [("con-1", resC3)] "a2V5" "74726163" defaultSettings =
      [CacheOp.del "certificates:a2V5",
       CacheOp.setex "certificates:74726163" 600 (certifyPayload [("con-1", resC3)])] ∧
    (certifyPayload [("con-1", resC3)]).objLookup "con-1" =
      some (perContractValue resC3) ∧
    ((certifyPayload [("con-1", resC3)]).objLookup "con-1").map Json.objKeys =
      some ["requirements"] ∧
    defaultSettings.ttl = 600 ∧ defaultSettings.key = "certificates") :=
  ⟨by decide, List.mem_singleton.mpr rfl,
    certifyWriteOps_characterization [("con-1", resC3)] "a2V5" "74726163" defaultSettings
      (by decide) "con-1" resC3 (List.mem_singleton.mpr rfl)⟩

/-- C10: at a specification set holding one contract, gating raises before any
cache operation, so nothing at all is written for the trace (the claim says
the empty certificate is still written); only when every scenario has zero
contracts does the worker write the empty JSON object with the configured
ttl under the certificates key, and no path- or postcondition is evaluated. -/
theorem certifySpan_gating_crashes :
    certifySpanOps evTrue specOne "a2V5" "74726163" defaultSettings =
      Except.error "AttributeError: Contract object has no attribute preconditions" ∧
    certifySpanOps evTrue specEmpty "a2V5" "74726163" defaultSettings =
      Except.ok [CacheOp.setex "certificates:74726163" 600 (Json.obj [])] :=
  ⟨rfl, rfl⟩

/-- Stable insertion permutes consing. -/
theorem insertByStart_perm (s : RawSpan) (l : List RawSpan) :
    (insertByStart s l).Perm (s :: l) := by
  induction l with
  | nil => simp [insertByStart]
  | cons t ts ih =>
    rw [insertByStart]
    by_cases h : s.startTime ≤ t.startTime
    · rw [if_pos h]
    · rw [if_neg h]
      exact (ih.cons t).trans (List.Perm.swap s t ts)

/-- Sorting by start time permutes the input. -/
theorem sortByStart_perm (tr : List RawSpan) : (sortByStart tr).Perm tr := by
  induction tr with
  | nil => simp [sortByStart]
  | cons s ss ih =>
    rw [sortByStart]
    exact (insertByStart_perm s (sortByStart ss)).trans (ih.cons s)

/-- Membership is unchanged by the sort. -/
theorem mem_sortByStart (s : RawSpan) (tr : List RawSpan) :
    s ∈ sortByStart tr ↔ s ∈ tr :=
  (sortByStart_perm tr).mem_iff

/-- The ids of the sorted list permute the input ids. -/
theorem idsOf_sortByStart_perm (tr : List RawSpan) :
    (idsOf (sortByStart tr)).Perm (idsOf tr) := by
  unfold idsOf
  exact (sortByStart_perm tr).map (fun s => s.spanID)

/-- Duplicate-free ids survive sorting. -/
theorem idsOf_sortByStart_nodup (tr : List RawSpan) (h : (idsOf tr).Nodup) :
    (idsOf (sortByStart tr)).Nodup :=
  (idsOf_sortByStart_perm tr).nodup_iff.mpr h

/-- Lookup after a dict update: the updated key reads the new value, any
other key is unchanged. -/
theorem dictLookup_insert {α : Type} (m : List (String × α)) (k0 k : String) (v : α) :
    dictLookup (dictInsert m k0 v) k = if k0 == k then some v else dictLookup m k := by
  induction m with
  | nil =>
    by_cases h : (k0 == k) = true
    · simp [dictInsert, dictLookup, h]
    · rw [Bool.not_eq_true] at h
      simp [dictInsert, dictLookup, h]
  | cons p ps ih =>
    by_cases h1 : (p.1 == k0) = true
    · have h1e : p.1 = k0 := beq_iff_eq.mp h1
      by_cases h2 : (k0 == k) = true
      · simp [dictInsert, dictLookup, h1, h2]
      · rw [Bool.not_eq_true] at h2
        have h3 : (p.1 == k) = false := by rw [h1e]; exact h2
        simp [dictInsert, dictLookup, h1, h2, h3]
    · rw [Bool.not_eq_true] at h1
      by_cases h3 : (p.1 == k) = true
      · have h4 : (k0 == k) = false := by
          apply beq_eq_false_iff_ne.mpr
          intro hkk
          have : p.1 = k := beq_iff_eq.mp h3
          exact (beq_eq_false_iff_ne.mp h1) (this.trans hkk.symm)
        simp [dictInsert, dictLookup, h1, h3, h4]
      · rw [Bool.not_eq_true] at h3
        simp [dictInsert, dictLookup, h1, h3, ih]

/-- Key membership after a dict update. -/
theorem dictKeys_insert_mem {α : Type} (m : List (String × α)) (k0 k : String) (v : α) :
    k ∈ dictKeys (dictInsert m k0 v) ↔ k ∈ dictKeys m ∨ k = k0 := by
  induction m with
  | nil => simp [dictInsert, dictKeys]
  | cons p ps ih =>
    by_cases h1 : (p.1 == k0) = true
    · have h1e : p.1 = k0 := beq_iff_eq.mp h1
      rw [dictInsert, if_pos h1]
      rw [show dictKeys ((k0, v) :: ps) = k0 :: dictKeys ps from rfl,
        show dictKeys (p :: ps) = p.1 :: dictKeys ps from rfl, h1e]
      rw [List.mem_cons]
      tauto
    · rw [Bool.not_eq_true] at h1
      rw [dictInsert, if_neg (by simp [h1])]
      rw [show dictKeys (p :: dictInsert ps k0 v) = p.1 :: dictKeys (dictInsert ps k0 v) from rfl,
        show dictKeys (p :: ps) = p.1 :: dictKeys ps from rfl]
      rw [List.mem_cons, List.mem_cons, ih]
      tauto

/-- A dict update keeps keys duplicate-free. -/
theorem dictKeys_insert_nodup {α : Type} (m : List (String × α)) (k0 : String) (v : α)
    (h : (dictKeys m).Nodup) : (dictKeys (dictInsert m k0 v)).Nodup := by
  induction m with
  | nil => simp [dictInsert, dictKeys]
  | cons p ps ih =>
    rw [dictKeys, List.map_cons, List.nodup_cons] at h
    by_cases h1 : (p.1 == k0) = true
    · have h1e : p.1 = k0 := beq_iff_eq.mp h1
      rw [dictInsert, if_pos h1]
      rw [dictKeys, List.map_cons, List.nodup_cons]
      exact ⟨by rw [← h1e]; exact h.1, h.2⟩
    · rw [Bool.not_eq_true] at h1
      rw [dictInsert, if_neg (by simp [h1])]
      rw [dictKeys, List.map_cons, List.nodup_cons]
      refine ⟨?_, ih h.2⟩
      intro hmem
      rcases (dictKeys_insert_mem ps k0 p.1 v).mp hmem with hm | hm
      · exact h.1 hm
      · exact (beq_eq_false_iff_ne.mp h1) hm

/-- Key presence tested by any agrees with lookup success. -/
theorem anyKey_eq_isSome {α : Type} (m : List (String × α)) (k : String) :
    (m.any (fun q => q.1 == k)) = (dictLookup m k).isSome := by
  induction m with
  | nil => simp [dictLookup]
  | cons p ps ih =>
    by_cases h : (p.1 == k) = true
    · simp [dictLookup, h]
    · rw [Bool.not_eq_true] at h
      simp [dictLookup, h, ih]

/-- Lookup into the node fold: the last record (in fold order) carrying the
key provides the stored node; otherwise the accumulator answers. -/
theorem foldNodes_lookup (l : List RawSpan) (acc : List (String × NodeData)) (k : String) :
    dictLookup (l.foldl (fun m s => dictInsert m s.spanID (initNode s)) acc) k =
      match findLast? (fun s => s.spanID == k) l with
      | some s => some (initNode s)
      | none => dictLookup acc k := by
  induction l generalizing acc with
  | nil => simp [findLast?]
  | cons s t ih =>
    rw [List.foldl_cons, ih]
    cases hf : findLast? (fun u => u.spanID == k) t with
    | some u => simp [findLast?, hf]
    | none =>
      by_cases hs : (s.spanID == k) = true
      · simp [findLast?, hf, hs, dictLookup_insert]
      · rw [Bool.not_eq_true] at hs
        simp [findLast?, hf, hs, dictLookup_insert]

/-- Key membership over the node fold: accumulator keys plus record ids. -/
theorem foldNodes_keys_mem (l : List RawSpan) (acc : List (String × NodeData)) (k : String) :
    k ∈ dictKeys (l.foldl (fun m s => dictInsert m s.spanID (initNode s)) acc) ↔
      k ∈ dictKeys acc ∨ k ∈ idsOf l := by
  induction l generalizing acc with
  | nil => simp [idsOf]
  | cons s t ih =>
    rw [List.foldl_cons, ih, dictKeys_insert_mem]
    rw [show idsOf (s :: t) = s.spanID :: idsOf t from rfl, List.mem_cons]
    tauto

/-- The node fold keeps keys duplicate-free. -/
theorem foldNodes_keys_nodup (l : List RawSpan) (acc : List (String × NodeData))
    (h : (dictKeys acc).Nodup) :
    (dictKeys (l.foldl (fun m s => dictInsert m s.spanID (initNode s)) acc)).Nodup := by
  induction l generalizing acc with
  | nil => exact h
  | cons s t ih =>
    rw [List.foldl_cons]
    exact ih _ (dictKeys_insert_nodup acc s.spanID (initNode s) h)

/-- Inserting an absent key appends the pair. -/
theorem dictInsert_append {α : Type} (m : List (String × α)) (k : String) (v : α)
    (h : k ∉ dictKeys m) : dictInsert m k v = m ++ [(k, v)] := by
  induction m with
  | nil => simp [dictInsert]
  | cons p ps ih =>
    rw [show dictKeys (p :: ps) = p.1 :: dictKeys ps from rfl, List.mem_cons] at h
    push_neg at h
    have h1 : (p.1 == k) = false := beq_eq_false_iff_ne.mpr (fun e => h.1 (e.symm))
    rw [dictInsert, if_neg (by simp [h1]), ih h.2, List.cons_append]

/-- With duplicate-free record ids all absent from the accumulator, the node
fold appends one entry per record in order. -/
theorem foldNodes_eq_append (l : List RawSpan) (acc : List (String × NodeData))
    (hn : (idsOf l).Nodup) (hdisj : ∀ k, k ∈ idsOf l → k ∉ dictKeys acc) :
    l.foldl (fun m s => dictInsert m s.spanID (initNode s)) acc =
      acc ++ l.map (fun s => (s.spanID, initNode s)) := by
  induction l generalizing acc with
  | nil => simp
  | cons s t ih =>
    rw [show idsOf (s :: t) = s.spanID :: idsOf t from rfl, List.nodup_cons] at hn
    rw [List.foldl_cons, dictInsert_append acc s.spanID (initNode s)
      (hdisj s.spanID (by rw [show idsOf (s :: t) = s.spanID :: idsOf t from rfl]; exact List.mem_cons_self _ _))]
    rw [ih (acc ++ [(s.spanID, initNode s)]) hn.2]
    · simp
    · intro k hk
      rw [show dictKeys (acc ++ [(s.spanID, initNode s)]) = dictKeys acc ++ [s.spanID] from by
        simp [dictKeys]]
      rw [List.mem_append, List.mem_singleton]
      push_neg
      refine ⟨hdisj k (by rw [show idsOf (s :: t) = s.spanID :: idsOf t from rfl]; exact List.mem_cons_of_mem _ hk), ?_⟩
      intro he
      exact hn.1 (he ▸ hk)

/-- With duplicate-free ids the nodes dictionary is one entry per sorted
record. -/
theorem buildNodes_eq_map (tr : List RawSpan) (h : (idsOf tr).Nodup) :
    buildNodes tr = (sortByStart tr).map (fun s => (s.spanID, initNode s)) := by
  rw [buildNodes, foldNodes_eq_append (sortByStart tr) [] (idsOf_sortByStart_nodup tr h)
    (by intro k _ hk; simp [dictKeys] at hk)]
  rfl

/-- A record list whose ids avoid k has no record found for k. -/
theorem find?_eq_none_of_ids (t : List RawSpan) (k : String) (h : k ∉ idsOf t) :
    t.find? (fun s => s.spanID == k) = none := by
  rw [List.find?_eq_none]
  intro x hx hpx
  exact h (by rw [← beq_iff_eq.mp hpx]; exact List.mem_map_of_mem _ hx)

/-- With duplicate-free ids the record found for the id of a member is the
member itself. -/
theorem find?_self_of_nodup (l : List RawSpan) (s : RawSpan) (hs : s ∈ l)
    (hn : (idsOf l).Nodup) : l.find? (fun u => u.spanID == s.spanID) = some s := by
  induction l with
  | nil => cases hs
  | cons x t ih =>
    rw [show idsOf (x :: t) = x.spanID :: idsOf t from rfl, List.nodup_cons] at hn
    rcases List.mem_cons.mp hs with h1 | h1
    · rw [← h1]
      rw [List.find?_cons_of_pos _ (by simp)]
    · have hx : (x.spanID == s.spanID) = false := by
        apply beq_eq_false_iff_ne.mpr
        intro he
        exact hn.1 (he ▸ List.mem_map_of_mem (fun u => u.spanID) h1)
      rw [List.find?_cons_of_neg _ (by simp [hx]), ih h1 hn.2]

/-- Lookup into the parent-assignment fold under duplicate-free ids: the
unique record carrying the id answers with its resolved parent when that
parent exists, otherwise the accumulator answers. -/
theorem foldPA_lookup (tr : List RawSpan) (l : List RawSpan) (acc : List (String × String))
    (k : String) (hn : (idsOf l).Nodup) :
    dictLookup (l.foldl
      (fun pm s => match knownParent tr s with
        | some p => dictInsert pm s.spanID p
        | none => pm) acc) k =
      match l.find? (fun s => s.spanID == k) with
      | some s =>
        match knownParent tr s with
        | some p => some p
        | none => dictLookup acc k
      | none => dictLookup acc k := by
  induction l generalizing acc with
  | nil => simp
  | cons s t ih =>
    rw [show idsOf (s :: t) = s.spanID :: idsOf t from rfl, List.nodup_cons] at hn
    rw [List.foldl_cons, ih _ hn.2]
    by_cases hs : (s.spanID == k) = true
    · have hfind : t.find? (fun u => u.spanID == k) = none :=
        find?_eq_none_of_ids t k (by rw [← beq_iff_eq.mp hs]; exact hn.1)
      have hcons : List.find? (fun u => u.spanID == k) (s :: t) = some s :=
        List.find?_cons_of_pos t (show (fun (u : RawSpan) => u.spanID == k) s = true from hs)
      rw [hfind, hcons]
      cases hkp : knownParent tr s with
      | some p =>
        simp only [hkp]
        rw [dictLookup_insert, if_pos hs]
      | none => simp only [hkp]
    · rw [Bool.not_eq_true] at hs
      have hcons : List.find? (fun u => u.spanID == k) (s :: t)
          = List.find? (fun u => u.spanID == k) t :=
        List.find?_cons_of_neg t
          (show ¬ (fun (u : RawSpan) => u.spanID == k) s = true from by simp [hs])
      rw [hcons]
      cases hkp : knownParent tr s with
      | some p =>
        simp only [hkp]
        cases hf : t.find? (fun u => u.spanID == k) with
        | some u =>
          simp only [hf]
          cases hku : knownParent tr u with
          | some q => simp only [hku]
          | none =>
            simp only [hku]
            rw [dictLookup_insert, if_neg (by simp [hs])]
        | none =>
          simp only [hf]
          rw [dictLookup_insert, if_neg (by simp [hs])]
      | none => simp only [hkp]

/-- parentAssignments lookup under duplicate-free ids. -/
theorem parentAssignments_lookup (tr : List RawSpan) (h : (idsOf tr).Nodup) (k : String) :
    dictLookup (parentAssignments tr) k =
      ((sortByStart tr).find? (fun s => s.spanID == k)).bind (knownParent tr) := by
  rw [parentAssignments, foldPA_lookup tr (sortByStart tr) [] k (idsOf_sortByStart_nodup tr h)]
  cases hf : (sortByStart tr).find? (fun s => s.spanID == k) with
  | some s =>
    cases hkp : knownParent tr s with
    | some p => simp [hkp]
    | none => simp [hkp, dictLookup]
  | none => simp [dictLookup]

/-- Under duplicate-free ids, the build roots are exactly the sorted records
whose resolved parent is absent, as nodes, in sorted order. -/
theorem buildRoots_char (tr : List RawSpan) (h : (idsOf tr).Nodup) :
    buildRoots tr =
      ((sortByStart tr).filter (fun s => (knownParent tr s).isNone)).map initNode := by
  rw [buildRoots, buildNodes_eq_map tr h, List.filter_map, List.map_map]
  have hfe : ∀ s ∈ sortByStart tr,
      ((fun p => !(parentAssignments tr).any (fun q => q.1 == p.1)) ∘
        (fun s => (s.spanID, initNode s))) s = (knownParent tr s).isNone := by
    intro s hs
    have h1 : ((fun p => !(parentAssignments tr).any (fun q => q.1 == p.1)) ∘
        (fun s => (s.spanID, initNode s))) s
        = !(parentAssignments tr).any (fun q => q.1 == s.spanID) := rfl
    rw [h1, anyKey_eq_isSome, parentAssignments_lookup tr h,
      find?_self_of_nodup (sortByStart tr) s hs (idsOf_sortByStart_nodup tr h)]
    cases hkp : knownParent tr s <;> simp [hkp]
  rw [List.filter_congr hfe]
  rfl

/-- The fold computing the virtual-root start is a lower bound for its seed
and for every listed node start. -/
theorem foldMin_le (l : List NodeData) (a : Nat) :
    (l.foldl (fun x n => min x n.startTime) a) ≤ a ∧
    ∀ n ∈ l, (l.foldl (fun x n => min x n.startTime) a) ≤ n.startTime := by
  induction l generalizing a with
  | nil => exact ⟨Nat.le_refl a, by intro n hn; cases hn⟩
  | cons m t ih =>
    rw [List.foldl_cons]
    obtain ⟨h1, h2⟩ := ih (min a m.startTime)
    refine ⟨le_trans h1 (Nat.min_le_left _ _), ?_⟩
    intro n hn
    rcases List.mem_cons.mp hn with h | h
    · exact le_trans h1 (by rw [h]; exact Nat.min_le_right _ _)
    · exact h2 n h

/-- The fold computing the virtual-root start lands on its seed or on a
listed node start. -/
theorem foldMin_mem (l : List NodeData) (a : Nat) :
    (l.foldl (fun x n => min x n.startTime) a) = a ∨
    ∃ n ∈ l, (l.foldl (fun x n => min x n.startTime) a) = n.startTime := by
  induction l generalizing a with
  | nil => exact Or.inl rfl
  | cons m t ih =>
    rw [List.foldl_cons]
    rcases ih (min a m.startTime) with h | h
    · rcases Nat.le_total a m.startTime with hle | hle
      · exact Or.inl (by rw [h]; exact Nat.min_eq_left hle)
      · exact Or.inr ⟨m, List.mem_cons_self _ _, by rw [h]; exact Nat.min_eq_right hle⟩
    · obtain ⟨n, hn, he⟩ := h
      exact Or.inr ⟨n, List.mem_cons_of_mem _ hn, he⟩

/-- The fold computing the virtual-root end is an upper bound for its seed
and for every listed node end. -/
theorem foldMax_ge (l : List NodeData) (a : Nat) :
    a ≤ (l.foldl (fun x n => max x n.endTime) a) ∧
    ∀ n ∈ l, n.endTime ≤ (l.foldl (fun x n => max x n.endTime) a) := by
  induction l generalizing a with
  | nil => exact ⟨Nat.le_refl a, by intro n hn; cases hn⟩
  | cons m t ih =>
    rw [List.foldl_cons]
    obtain ⟨h1, h2⟩ := ih (max a m.endTime)
    refine ⟨le_trans (Nat.le_max_left _ _) h1, ?_⟩
    intro n hn
    rcases List.mem_cons.mp hn with h | h
    · exact le_trans (by rw [h]; exact Nat.le_max_right a m.endTime) h1
    · exact h2 n h

/-- The fold computing the virtual-root end lands on its seed or on a listed
node end. -/
theorem foldMax_mem (l : List NodeData) (a : Nat) :
    (l.foldl (fun x n => max x n.endTime) a) = a ∨
    ∃ n ∈ l, (l.foldl (fun x n => max x n.endTime) a) = n.endTime := by
  induction l generalizing a with
  | nil => exact Or.inl rfl
  | cons m t ih =>
    rw [List.foldl_cons]
    rcases ih (max a m.endTime) with h | h
    · rcases Nat.le_total a m.endTime with hle | hle
      · exact Or.inr ⟨m, List.mem_cons_self _ _, by rw [h]; exact Nat.max_eq_right hle⟩
      · exact Or.inl (by rw [h]; exact Nat.max_eq_left hle)
    · obtain ⟨n, hn, he⟩ := h
      exact Or.inr ⟨n, List.mem_cons_of_mem _ hn, he⟩

/-- A duplicate-free list whose elements all equal a member is that
singleton. -/
theorem nodup_all_eq_singleton {α : Type} (l : List α) (s : α) (hd : l.Nodup)
    (hall : ∀ x ∈ l, x = s) (hs : s ∈ l) : l = [s] := by
  cases l with
  | nil => cases hs
  | cons x t =>
    have hx : x = s := hall x (List.mem_cons_self _ _)
    have ht : t = [] := by
      cases t with
      | nil => rfl
      | cons y u =>
        have hy : y = s := hall y (List.mem_cons_of_mem _ (List.mem_cons_self _ _))
        rw [List.nodup_cons] at hd
        exact absurd (show x ∈ y :: u from by rw [hx, ← hy]; exact List.mem_cons_self _ _) hd.1
    rw [hx, ht]

/-- A list holding two different elements has more than one element. -/
theorem one_lt_length_of_two_mem {α : Type} (l : List α) (a b : α) (ha : a ∈ l)
    (hb : b ∈ l) (hne : a ≠ b) : 1 < l.length := by
  cases l with
  | nil => cases ha
  | cons x t =>
    cases t with
    | nil =>
      rw [List.mem_singleton] at ha hb
      exact absurd (ha.trans hb.symm) hne
    | cons y u =>
      rw [List.length_cons, List.length_cons]
      omega

/-- Key presence as a membership statement. -/
theorem anyKey_iff_mem {α : Type} (m : List (String × α)) (k : String) :
    (m.any (fun q => q.1 == k)) = true ↔ k ∈ dictKeys m := by
  rw [List.any_eq_true]
  constructor
  · intro h
    obtain ⟨q, hq, he⟩ := h
    exact (beq_iff_eq.mp he) ▸ List.mem_map_of_mem Prod.fst hq
  · intro h
    obtain ⟨q, hq, he⟩ := List.mem_map.mp h
    exact ⟨q, hq, beq_iff_eq.mpr he⟩

/-- C4: for every valid span list (duplicate-free, non-empty span ids, at
least one span without a known parent) and fresh virtual-root id, the built
tree has exactly one parentless node and it is the returned root; when
exactly one span has no known parent, that span is the root and nothing is
synthesized; when two different spans have no known parent, the root is a
synthesized virtual node spanning the minimum start and maximum end over the
parentless spans, which are reparented under it; and every span whose
declared parentSpanId names one of the input span ids keeps exactly that
parent. -/
theorem spanTree_single_root (tr : List RawSpan) (freshId : String)
    (hnodup : (idsOf tr).Nodup)
    (hroot : ∃ s, s ∈ tr ∧ knownParent tr s = none)
    (hfresh : freshId ∉ idsOf tr)
    (hempty : "" ∉ idsOf tr) :
    ∃ rr, findRoot tr freshId = some rr ∧
      finalParent tr freshId rr.rootId = none ∧
      (∀ sid, (sid ∈ idsOf tr ∨ sid = rr.rootId) →
        finalParent tr freshId sid = none → sid = rr.rootId) ∧
      (∀ s, s ∈ tr → knownParent tr s = none →
        (∀ u, u ∈ tr → knownParent tr u = none → u = s) →
        rr.rootId = s.spanID ∧ rr.isVirtual = false) ∧
      (∀ s u, s ∈ tr → u ∈ tr → s ≠ u →
        knownParent tr s = none → knownParent tr u = none →
        rr.isVirtual = true ∧ rr.rootId = freshId ∧
        (∃ n, n ∈ tr ∧ knownParent tr n = none ∧ n.startTime = rr.startTime) ∧
        (∀ n, n ∈ tr → knownParent tr n = none → rr.startTime ≤ n.startTime) ∧
        (∃ n, n ∈ tr ∧ knownParent tr n = none ∧ n.endTime = rr.endTime) ∧
        (∀ n, n ∈ tr → knownParent tr n = none → n.endTime ≤ rr.endTime)) ∧
      (∀ s, s ∈ tr → knownParent tr s = none →
        finalParent tr freshId s.spanID = none ∨
        finalParent tr freshId s.spanID = some freshId) ∧
      (∀ s p, s ∈ tr → s.parentSpanID = some p → p ∈ idsOf tr →
        finalParent tr freshId s.spanID = some p) := by
  have hsn : (idsOf (sortByStart tr)).Nodup := idsOf_sortByStart_nodup tr hnodup
  have hsrtnodup : (sortByStart tr).Nodup := List.Nodup.of_map _ hsn
  have hchar := buildRoots_char tr hnodup
  have hidmem : ∀ k, k ∈ idsOf (sortByStart tr) ↔ k ∈ idsOf tr :=
    fun k => (idsOf_sortByStart_perm tr).mem_iff
  have hlook : ∀ s, s ∈ tr →
      dictLookup (parentAssignments tr) s.spanID = knownParent tr s := by
    intro s hs
    rw [parentAssignments_lookup tr hnodup,
      find?_self_of_nodup (sortByStart tr) s ((mem_sortByStart s tr).mpr hs) hsn]
    rfl
  have hrec : ∀ sid, sid ∈ idsOf tr → ∃ s, s ∈ tr ∧ s.spanID = sid := by
    intro sid hsid
    obtain ⟨s, hs, he⟩ := List.mem_map.mp hsid
    exact ⟨s, hs, he⟩
  have hFmem : ∀ s, s ∈ (sortByStart tr).filter (fun s => (knownParent tr s).isNone) ↔
      (s ∈ tr ∧ knownParent tr s = none) := by
    intro s
    rw [List.mem_filter, mem_sortByStart]
    constructor
    · rintro ⟨h1, h2⟩
      exact ⟨h1, Option.isNone_iff_eq_none.mp h2⟩
    · rintro ⟨h1, h2⟩
      exact ⟨h1, by rw [h2]; rfl⟩
  have hFnodup : ((sortByStart tr).filter (fun s => (knownParent tr s).isNone)).Nodup :=
    List.Nodup.filter _ hsrtnodup
  obtain ⟨s0, hs0tr, hs0kp⟩ := hroot
  have hs0F : s0 ∈ (sortByStart tr).filter (fun s => (knownParent tr s).isNone) :=
    (hFmem s0).mpr ⟨hs0tr, hs0kp⟩
  have hrootid : ∀ n, n ∈ buildRoots tr →
      ∃ s, s ∈ (sortByStart tr).filter (fun s => (knownParent tr s).isNone) ∧ n = initNode s := by
    intro n hn
    rw [hchar] at hn
    obtain ⟨s, hs, he⟩ := List.mem_map.mp hn
    exact ⟨s, hs, he.symm⟩
  have hrootmem : ∀ s, s ∈ (sortByStart tr).filter (fun s => (knownParent tr s).isNone) →
      initNode s ∈ buildRoots tr := by
    intro s hs
    rw [hchar]
    exact List.mem_map_of_mem initNode hs
  have hP5 : ∀ s p, s ∈ tr → s.parentSpanID = some p → p ∈ idsOf tr →
      finalParent tr freshId s.spanID = some p := by
    intro s p hs hdecl hp
    have hptruthy : (p == "") = false := by
      apply beq_eq_false_iff_ne.mpr
      intro he
      exact hempty (he ▸ hp)
    have hkeys : p ∈ dictKeys (buildNodes tr) := by
      rw [buildNodes, foldNodes_keys_mem]
      exact Or.inr ((hidmem p).mpr hp)
    have hnode : hasNodeId tr p = true := by
      rw [hasNodeId, anyKey_iff_mem]
      exact hkeys
    have hkp : knownParent tr s = some p := by
      simp [knownParent, hdecl, hptruthy, hnode]
    simp only [finalParent, hlook s hs, hkp]
  have hP6 : ∀ s, s ∈ tr → knownParent tr s = none →
      finalParent tr freshId s.spanID = none ∨
      finalParent tr freshId s.spanID = some freshId := by
    intro s hs hkp
    simp only [finalParent, hlook s hs, hkp]
    by_cases hc : 1 < (buildRoots tr).length ∧
        ((buildRoots tr).any (fun n => n.spanId == s.spanID)) = true
    · exact Or.inr (by rw [if_pos hc])
    · exact Or.inl (by rw [if_neg hc])
  by_cases hsingle : 1 < (buildRoots tr).length
  · -- several roots: a virtual root is synthesized
    cases hroots0 : buildRoots tr with
    | nil => rw [hroots0] at hsingle; simp at hsingle
    | cons r rs =>
      refine ⟨⟨freshId, true,
        rs.foldl (fun a n => min a n.startTime) r.startTime,
        rs.foldl (fun a n => max a n.endTime) r.endTime⟩, ?_, ?_, ?_, ?_, ?_, hP6, hP5⟩
      · simp only [findRoot]
        rw [hroots0, if_pos (by rw [hroots0] at hsingle; exact hsingle)]
      · have hlookupFresh : dictLookup (parentAssignments tr) freshId = none := by
          rw [parentAssignments_lookup tr hnodup,
            find?_eq_none_of_ids (sortByStart tr) freshId
              (fun h => hfresh ((hidmem freshId).mp h))]
          rfl
        have hanyFresh : ((buildRoots tr).any (fun n => n.spanId == freshId)) = false := by
          rw [List.any_eq_false]
          intro n hn hbeq
          obtain ⟨s, hsF, he⟩ := hrootid n hn
          apply hfresh
          rw [← beq_iff_eq.mp hbeq, he]
          exact (hidmem s.spanID).mp
            (List.mem_map_of_mem _ (List.mem_of_mem_filter hsF))
        simp only [finalParent, hlookupFresh]
        rw [if_neg]
        intro hcond
        rw [hanyFresh] at hcond
        exact Bool.false_ne_true hcond.2
      · intro sid hsid hfp
        rcases hsid with hsid | hsid
        · exfalso
          obtain ⟨u, hu, hue⟩ := hrec sid hsid
          rw [← hue] at hfp
          have hlu := hlook u hu
          cases hku : knownParent tr u with
          | some p =>
            rw [show finalParent tr freshId u.spanID = some p from by
              simp only [finalParent, hlu, hku]] at hfp
            cases hfp
          | none =>
            have hany : ((buildRoots tr).any (fun n => n.spanId == u.spanID)) = true := by
              rw [List.any_eq_true]
              exact ⟨initNode u, hrootmem u ((hFmem u).mpr ⟨hu, hku⟩), beq_self_eq_true _⟩
            rw [show finalParent tr freshId u.spanID = some freshId from by
              simp only [finalParent, hlu, hku]
              rw [if_pos ⟨hsingle, hany⟩]] at hfp
            cases hfp
        · exact hsid
      · intro s hs hkp huniq
        exfalso
        have hall : ∀ x ∈ (sortByStart tr).filter (fun s => (knownParent tr s).isNone),
            x = s := fun x hx => huniq x ((hFmem x).mp hx).1 ((hFmem x).mp hx).2
        have hsingF : (sortByStart tr).filter (fun s => (knownParent tr s).isNone) = [s] :=
          nodup_all_eq_singleton _ s hFnodup hall ((hFmem s).mpr ⟨hs, hkp⟩)
        have hlen1 : (buildRoots tr).length = 1 := by
          rw [hchar, hsingF]
          rfl
        omega
      · intro s u hs hu hne hkps hkpu
        refine ⟨rfl, rfl, ?_, ?_, ?_, ?_⟩
        · rcases foldMin_mem rs r.startTime with h | h
          · obtain ⟨sr, hsrF, hre⟩ :=
              hrootid r (by rw [hroots0]; exact List.mem_cons_self _ _)
            exact ⟨sr, ((hFmem sr).mp hsrF).1, ((hFmem sr).mp hsrF).2, by rw [h, hre]; rfl⟩
          · obtain ⟨n, hn, he⟩ := h
            obtain ⟨sr, hsrF, hre⟩ :=
              hrootid n (by rw [hroots0]; exact List.mem_cons_of_mem _ hn)
            exact ⟨sr, ((hFmem sr).mp hsrF).1, ((hFmem sr).mp hsrF).2, by rw [he, hre]; rfl⟩
        · intro n hn hkpn
          have hmemn : initNode n ∈ buildRoots tr := hrootmem n ((hFmem n).mpr ⟨hn, hkpn⟩)
          rw [hroots0] at hmemn
          rcases List.mem_cons.mp hmemn with h | h
          · have : (initNode n).startTime = r.startTime := by rw [h]
            rw [show n.startTime = r.startTime from this]
            exact (foldMin_le rs r.startTime).1
          · exact (foldMin_le rs r.startTime).2 (initNode n) h
        · rcases foldMax_mem rs r.endTime with h | h
          · obtain ⟨sr, hsrF, hre⟩ :=
              hrootid r (by rw [hroots0]; exact List.mem_cons_self _ _)
            exact ⟨sr, ((hFmem sr).mp hsrF).1, ((hFmem sr).mp hsrF).2, by rw [h, hre]; rfl⟩
          · obtain ⟨n, hn, he⟩ := h
            obtain ⟨sr, hsrF, hre⟩ :=
              hrootid n (by rw [hroots0]; exact List.mem_cons_of_mem _ hn)
            exact ⟨sr, ((hFmem sr).mp hsrF).1, ((hFmem sr).mp hsrF).2, by rw [he, hre]; rfl⟩
        · intro n hn hkpn
          have hmemn : initNode n ∈ buildRoots tr := hrootmem n ((hFmem n).mpr ⟨hn, hkpn⟩)
          rw [hroots0] at hmemn
          rcases List.mem_cons.mp hmemn with h | h
          · have : (initNode n).endTime = r.endTime := by rw [h]
            rw [show n.endTime = r.endTime from this]
            exact (foldMax_ge rs r.endTime).1
          · exact (foldMax_ge rs r.endTime).2 (initNode n) h
  · -- exactly one root
    have h0 : 0 < (buildRoots tr).length := by
      have hm := hrootmem s0 hs0F
      exact List.length_pos.mpr (by intro h; rw [h] at hm; cases hm)
    have hlen1 : (buildRoots tr).length = 1 := by omega
    obtain ⟨r, hr⟩ := List.length_eq_one.mp hlen1
    have hFlen : ((sortByStart tr).filter (fun s => (knownParent tr s).isNone)).length = 1 := by
      have := hlen1
      rw [hchar, List.length_map] at this
      exact this
    obtain ⟨sF, hsF⟩ := List.length_eq_one.mp hFlen
    have hsFmem : sF ∈ (sortByStart tr).filter (fun s => (knownParent tr s).isNone) := by
      rw [hsF]
      exact List.mem_cons_self _ _
    have hreF : r = initNode sF := by
      have hmap : ((sortByStart tr).filter (fun s => (knownParent tr s).isNone)).map initNode
          = [r] := by rw [← hchar, hr]
      rw [hsF] at hmap
      simpa using hmap.symm
    have hfr : findRoot tr freshId = some ⟨r.spanId, false, r.startTime, r.endTime⟩ := by
      simp only [findRoot]
      rw [hr, if_neg (by rw [hr] at hsingle; exact hsingle)]
    have hrootsid : r.spanId = sF.spanID := by rw [hreF]; rfl
    have hkpF : knownParent tr sF = none := ((hFmem sF).mp hsFmem).2
    have htrF : sF ∈ tr := ((hFmem sF).mp hsFmem).1
    refine ⟨⟨r.spanId, false, r.startTime, r.endTime⟩, hfr, ?_, ?_, ?_, ?_, hP6, hP5⟩
    · simp only [finalParent, hrootsid, hlook sF htrF, hkpF]
      rw [if_neg]
      intro hcond
      exact hsingle hcond.1
    · intro sid hsid hfp
      rcases hsid with hsid | hsid
      · obtain ⟨u, hu, hue⟩ := hrec sid hsid
        rw [← hue] at hfp
        have hlu := hlook u hu
        cases hku : knownParent tr u with
        | some p =>
          rw [show finalParent tr freshId u.spanID = some p from by
            simp only [finalParent, hlu, hku]] at hfp
          cases hfp
        | none =>
          have huF : u ∈ (sortByStart tr).filter (fun s => (knownParent tr s).isNone) :=
            (hFmem u).mpr ⟨hu, hku⟩
          rw [hsF, List.mem_singleton] at huF
          rw [← hue, huF, hrootsid]
      · exact hsid
    · intro s hs hkp _
      have hsF2 : s ∈ (sortByStart tr).filter (fun s => (knownParent tr s).isNone) :=
        (hFmem s).mpr ⟨hs, hkp⟩
      rw [hsF, List.mem_singleton] at hsF2
      exact ⟨by rw [hrootsid, hsF2], rfl⟩
    · intro s u hs hu hne hkps hkpu
      exfalso
      have hsF2 : s ∈ (sortByStart tr).filter (fun x => (knownParent tr x).isNone) :=
        (hFmem s).mpr ⟨hs, hkps⟩
      have huF2 : u ∈ (sortByStart tr).filter (fun x => (knownParent tr x).isNone) :=
        (hFmem u).mpr ⟨hu, hkpu⟩
      rw [hsF, List.mem_singleton] at hsF2 huF2
      exact hne (hsF2.trans huF2.symm)

/-- Witness for the C4 tree theorem at the two-span scenario: span aaaa with
no parent and span bbbb declaring aaaa; the root is aaaa, nothing virtual is
synthesized, and bbbb keeps its declared parent. -/
theorem spanTree_single_root_witness :
    findRoot [spanA, spanB] "ffff" = some ⟨"aaaa", false, 0, 100⟩ ∧
    finalParent [spanA, spanB] "ffff" "bbbb" = some "aaaa" ∧
    finalParent [spanA, spanB] "ffff" "aaaa" = none := by
  obtain ⟨rr, h1, h2, h3, h4, h5, h6, h7⟩ :=
    spanTree_single_root [spanA, spanB] "ffff" (by decide)
      ⟨spanA, by decide, by decide⟩ (by decide) (by decide)
  have h4a := h4 spanA (by decide) (by decide) (by decide)
  refine ⟨rfl, ?_, ?_⟩
  · exact h7 spanB "aaaa" (by decide) rfl (by decide)
  · have hid : rr.rootId = "aaaa" := h4a.1
    rw [← hid]
    exact h2

/-- C6: counterexample — two records sharing the span id "a" are accepted by
trace construction: the nodes dictionary collapses them into one node (the
later record in start-time order wins), the root is found, and no error is
raised. -/
theorem trace_build_accepts_duplicate_ids :
    (buildNodes [dupA, dupB]).length = 1 ∧
    dictLookup (buildNodes [dupA, dupB]) "a" = some (initNode dupB) ∧
    findRoot [dupA, dupB] "f0f0" = some ⟨"a", false, 5, 9⟩ :=
  ⟨rfl, rfl, rfl⟩

/-- C6 amended: for every raw span list, trace construction keeps exactly one
node per distinct span id: the node dictionary keys are duplicate-free and
cover exactly the input span ids, and the stored node for an id comes from
the last record with that id in start-time order; no rejection ever
happens. -/
theorem buildNodes_dedup_characterization (tr : List RawSpan) :
    (dictKeys (buildNodes tr)).Nodup ∧
    (∀ k, k ∈ dictKeys (buildNodes tr) ↔ k ∈ idsOf tr) ∧
    (∀ k, dictLookup (buildNodes tr) k =
      (findLast? (fun s => s.spanID == k) (sortByStart tr)).map initNode) := by
  refine ⟨?_, ?_, ?_⟩
  · rw [buildNodes]
    exact foldNodes_keys_nodup _ [] (by simp [dictKeys])
  · intro k
    rw [buildNodes, foldNodes_keys_mem]
    constructor
    · intro h
      rcases h with h | h
      · simp [dictKeys] at h
      · exact (idsOf_sortByStart_perm tr).mem_iff.mp h
    · intro h
      exact Or.inr ((idsOf_sortByStart_perm tr).mem_iff.mpr h)
  · intro k
    rw [buildNodes, foldNodes_lookup]
    cases hf : findLast? (fun s => s.spanID == k) (sortByStart tr) <;> simp [hf, dictLookup]

/-- The Python `or` with a falsy left operand. -/
theorem pyOr_none_left (b : Option String) : pyOr none b = b := by
  simp [pyOr, truthyOpt]

/-- The Python `or` with a truthy left operand. -/
theorem pyOr_truthy (a b : Option String) (h : truthyOpt a = true) : pyOr a b = a := by
  simp [pyOr, h]

/-- A clean optional value that is not truthy is absent. -/
theorem clean_not_truthy (a : Option String) (hc : cleanOptB a = true)
    (ht : truthyOpt a = false) : a = none := by
  cases a with
  | none => rfl
  | some v =>
    rw [show cleanOptB (some v) = !(v == "") from rfl] at hc
    rw [show truthyOpt (some v) = !(v == "") from rfl] at ht
    rw [hc] at ht
    cases ht

/-- Cleanliness is preserved by the Python `or`. -/
theorem pyOr_clean (a b : Option String) (ha : cleanOptB a = true)
    (hb : cleanOptB b = true) : cleanOptB (pyOr a b) = true := by
  rw [pyOr]
  by_cases h : truthyOpt a = true
  · rw [if_pos h]; exact ha
  · rw [if_neg h]; exact hb

/-- First-wins for an id field of the analyze scan: under clean attribute
values, the scanned result for a field whose step is a Python `or` with a
per-span getter is the first present value over the whole list, regardless
of where the scan breaks. -/
theorem analyzeLoop_firstwins (proj : TraceInfo → Option String)
    (getter : RawSpan → Option String)
    (hstep : ∀ info s, proj (analyzeStep info s) = pyOr (proj info) (getter s))
    (hcompl : ∀ info, info.isComplete = true → (proj info).isSome = true) :
    ∀ (l : List RawSpan) (info : TraceInfo),
      (∀ s ∈ l, cleanOptB (getter s) = true) → cleanOptB (proj info) = true →
      proj (analyzeLoop info l) = pyOr (proj info) (l.findSome? getter) := by
  intro l
  induction l with
  | nil =>
    intro info _ hcleaninfo
    rw [analyzeLoop, List.findSome?_nil]
    cases hp : proj info with
    | none => exact (pyOr_none_left none).symm
    | some v =>
      have ht : truthyOpt (some v) = true := by
        rw [hp] at hcleaninfo
        exact hcleaninfo
      exact (pyOr_truthy _ _ ht).symm
  | cons s rest ih =>
    intro info hcleanl hcleaninfo
    have hcg : cleanOptB (getter s) = true := hcleanl s (List.mem_cons_self _ _)
    have hcrest : ∀ u ∈ rest, cleanOptB (getter u) = true :=
      fun u hu => hcleanl u (List.mem_cons_of_mem _ hu)
    have hinfo2 : proj (analyzeStep info s) = pyOr (proj info) (getter s) := hstep info s
    have hclean2 : cleanOptB (proj (analyzeStep info s)) = true := by
      rw [hinfo2]
      exact pyOr_clean _ _ hcleaninfo hcg
    rw [analyzeLoop]
    by_cases hc : (analyzeStep info s).isComplete = true
    · rw [if_pos hc, hinfo2]
      have hsome : (pyOr (proj info) (getter s)).isSome = true := by
        rw [← hinfo2]
        exact hcompl _ hc
      cases hpi : truthyOpt (proj info) with
      | true => rw [pyOr_truthy _ _ hpi, pyOr_truthy _ _ hpi]
      | false =>
        have hnone : proj info = none := clean_not_truthy _ hcleaninfo hpi
        rw [hnone, pyOr_none_left] at hsome ⊢
        rw [pyOr_none_left]
        obtain ⟨v, hv⟩ := Option.isSome_iff_exists.mp hsome
        rw [hv]
        simp [List.findSome?_cons, hv]
    · rw [if_neg hc, ih (analyzeStep info s) hcrest hclean2, hinfo2]
      cases hpi : truthyOpt (proj info) with
      | true =>
        rw [pyOr_truthy _ _ hpi, pyOr_truthy _ _ hpi, pyOr_truthy _ _ hpi]
      | false =>
        have hnone : proj info = none := clean_not_truthy _ hcleaninfo hpi
        rw [hnone, pyOr_none_left, pyOr_none_left]
        cases hg : getter s with
        | none =>
          rw [pyOr_none_left]
          simp [List.findSome?_cons, hg]
        | some v =>
          have ht : truthyOpt (some v) = true := by
            rw [hg] at hcg
            exact hcg
          rw [pyOr_truthy _ _ ht]
          simp [List.findSome?_cons, hg]

/-- The framework guess computed by the first loop is the last-wins fold of
the scope-name heuristic over the scanned spans. -/
theorem analyzeLoop_framework : ∀ (l : List RawSpan) (info : TraceInfo),
    (analyzeLoop info l).framework = (scannedSpans info l).foldl guessStep info.framework := by
  intro l
  induction l with
  | nil => intro info; rfl
  | cons s rest ih =>
    intro info
    rw [analyzeLoop, scannedSpans]
    have hfw : (analyzeStep info s).framework = guessStep info.framework s := by
      rw [analyzeStep, guessStep]
      dsimp only
      by_cases h : Framework.fromName (getAttr s.attributes SCOPE_NAME_KEY) ≠ Framework.UNKNOWN
      · rw [if_pos h, if_pos h]
      · rw [if_neg h, if_neg h]
    by_cases hc : (analyzeStep info s).isComplete = true
    · rw [if_pos hc, if_pos hc, List.foldl_cons, List.foldl_nil, hfw]
    · rw [if_neg hc, if_neg hc, ih (analyzeStep info s), List.foldl_cons, hfw]

/-- C8 amended: under clean attribute values (no empty-string values for the
four id fields), the metadata scan is first-wins over the whole span list for
project name, run id, specifications id and scenario id; the framework guess
is last-wins over the scanned prefix (each scanned span whose scope-name
heuristic yields a known framework overwrites the guess), and a second pass
overrides the guess with the first span whose scope name matches the CrewAI
or LangChain instrumentator id exactly. -/
theorem analyze_characterization (tr : List RawSpan)
    (hclean : ∀ s ∈ tr,
      cleanOptB (getAttr s.resourceAttributes PROJECT_NAME_KEY) = true ∧
      cleanOptB (getAttr s.resourceAttributes RUN_ID_KEY) = true ∧
      cleanOptB (getAttr s.attributes SPECIFICATIONS_ID_KEY) = true ∧
      cleanOptB (getAttr s.attributes SCENARIO_ID_KEY) = true) :
    (analyze tr).projectName =
      tr.findSome? (fun s => getAttr s.resourceAttributes PROJECT_NAME_KEY) ∧
    (analyze tr).runId =
      tr.findSome? (fun s => getAttr s.resourceAttributes RUN_ID_KEY) ∧
    (analyze tr).specificationsId =
      tr.findSome? (fun s => getAttr s.attributes SPECIFICATIONS_ID_KEY) ∧
    (analyze tr).scenarioId =
      tr.findSome? (fun s => getAttr s.attributes SCENARIO_ID_KEY) ∧
    (analyze tr).framework =
      (match secondPassFw tr with
       | some fw => fw
       | none => lastGuess (scannedSpans {} tr)) := by
  have hfield : ∀ (proj : TraceInfo → Option String) (getter : RawSpan → Option String),
      (∀ info s, proj (analyzeStep info s) = pyOr (proj info) (getter s)) →
      (∀ info, info.isComplete = true → (proj info).isSome = true) →
      (proj (analyze tr) = proj (analyzeLoop {} tr)) →
      proj ({} : TraceInfo) = none →
      (∀ s ∈ tr, cleanOptB (getter s) = true) →
      proj (analyze tr) = tr.findSome? getter := by
    intro proj getter hstep hcompl hskip h0 hcl
    rw [hskip, analyzeLoop_firstwins proj getter hstep hcompl tr {} hcl (by rw [h0]; rfl),
      h0, pyOr_none_left]
  have hstepPN : ∀ (info : TraceInfo) (s : RawSpan), (analyzeStep info s).projectName
      = pyOr info.projectName (getAttr s.resourceAttributes PROJECT_NAME_KEY) := by
    intro info s
    rw [analyzeStep]
    dsimp only
    by_cases h : Framework.fromName (getAttr s.attributes SCOPE_NAME_KEY) ≠ Framework.UNKNOWN
    · rw [if_pos h]
    · rw [if_neg h]
  have hstepRI : ∀ (info : TraceInfo) (s : RawSpan), (analyzeStep info s).runId
      = pyOr info.runId (getAttr s.resourceAttributes RUN_ID_KEY) := by
    intro info s
    rw [analyzeStep]
    dsimp only
    by_cases h : Framework.fromName (getAttr s.attributes SCOPE_NAME_KEY) ≠ Framework.UNKNOWN
    · rw [if_pos h]
    · rw [if_neg h]
  have hstepSI : ∀ (info : TraceInfo) (s : RawSpan), (analyzeStep info s).specificationsId
      = pyOr info.specificationsId (getAttr s.attributes SPECIFICATIONS_ID_KEY) := by
    intro info s
    rw [analyzeStep]
    dsimp only
    by_cases h : Framework.fromName (getAttr s.attributes SCOPE_NAME_KEY) ≠ Framework.UNKNOWN
    · rw [if_pos h]
    · rw [if_neg h]
  have hstepSC : ∀ (info : TraceInfo) (s : RawSpan), (analyzeStep info s).scenarioId
      = pyOr info.scenarioId (getAttr s.attributes SCENARIO_ID_KEY) := by
    intro info s
    rw [analyzeStep]
    dsimp only
    by_cases h : Framework.fromName (getAttr s.attributes SCOPE_NAME_KEY) ≠ Framework.UNKNOWN
    · rw [if_pos h]
    · rw [if_neg h]
  have hcompl4 : ∀ info : TraceInfo, info.isComplete = true →
      info.projectName.isSome = true ∧ info.runId.isSome = true ∧
      info.scenarioId.isSome = true ∧ info.specificationsId.isSome = true := by
    intro info h
    rw [TraceInfo.isComplete] at h
    repeat rw [Bool.and_eq_true] at h
    exact ⟨h.1.1.1, h.1.1.2, h.1.2, h.2⟩
  refine ⟨?_, ?_, ?_, ?_, ?_⟩
  · exact hfield (fun i => i.projectName) _ hstepPN (fun info h => (hcompl4 info h).1)
      (by simp only [analyze]; cases h : secondPassFw tr <;> simp [h]) rfl
      (fun s hs => (hclean s hs).1)
  · exact hfield (fun i => i.runId) _ hstepRI (fun info h => (hcompl4 info h).2.1)
      (by simp only [analyze]; cases h : secondPassFw tr <;> simp [h]) rfl
      (fun s hs => (hclean s hs).2.1)
  · exact hfield (fun i => i.specificationsId) _ hstepSI
      (fun info h => (hcompl4 info h).2.2.2)
      (by simp only [analyze]; cases h : secondPassFw tr <;> simp [h]) rfl
      (fun s hs => (hclean s hs).2.2.1)
  · exact hfield (fun i => i.scenarioId) _ hstepSC (fun info h => (hcompl4 info h).2.2.1)
      (by simp only [analyze]; cases h : secondPassFw tr <;> simp [h]) rfl
      (fun s hs => (hclean s hs).2.2.2)
  · simp only [analyze]
    cases h : secondPassFw tr with
    | some fw => simp [h]
    | none =>
      simp only [h]
      rw [analyzeLoop_framework tr {}]
      rfl

/-- C8: counterexample — the framework guess is not first-wins. At a span
list whose first span carries a langchain scope name and whose second span
carries a crewai scope name and completes the four id fields, the scan
returns CREWAI while the first-wins reading of the spec returns LANGCHAIN. -/
theorem analyze_framework_not_firstwins :
    (analyze [ex8a, ex8b]).framework = Framework.CREWAI ∧
    firstFrameworkGuess [ex8a, ex8b] = some Framework.LANGCHAIN ∧
    Framework.CREWAI ≠ Framework.LANGCHAIN :=
  ⟨rfl, rfl, by decide⟩

/-- Witness for the C8 amended characterization at the two-span fixture: the
clean-values hypothesis holds, all four id fields are first-wins over the
whole list, and the framework resolves to the last scanned known guess as no
second-pass scope entry matches. -/
theorem analyze_characterization_witness :
    (∀ s ∈ [ex8a, ex8b],
      cleanOptB (getAttr s.resourceAttributes PROJECT_NAME_KEY) = true ∧
      cleanOptB (getAttr s.resourceAttributes RUN_ID_KEY) = true ∧
      cleanOptB (getAttr s.attributes SPECIFICATIONS_ID_KEY) = true ∧
      cleanOptB (getAttr s.attributes SCENARIO_ID_KEY) = true) ∧
    ((analyze [ex8a, ex8b]).projectName =
      [ex8a, ex8b].findSome? (fun s => getAttr s.resourceAttributes PROJECT_NAME_KEY) ∧
    (analyze [ex8a, ex8b]).runId =
      [ex8a, ex8b].findSome? (fun s => getAttr s.resourceAttributes RUN_ID_KEY) ∧
    (analyze [ex8a, ex8b]).specificationsId =
      [ex8a, ex8b].findSome? (fun s => getAttr s.attributes SPECIFICATIONS_ID_KEY) ∧
    (analyze [ex8a, ex8b]).scenarioId =
      [ex8a, ex8b].findSome? (fun s => getAttr s.attributes SCENARIO_ID_KEY) ∧
    (analyze [ex8a, ex8b]).framework =
      (match secondPassFw [ex8a, ex8b] with
       | some fw => fw
       | none => lastGuess (scannedSpans {} [ex8a, ex8b]))) :=
  ⟨by decide, analyze_characterization [ex8a, ex8b] (by decide)⟩

/-- C7: counterexample — a tree whose root is a non-ignored node with one
intermediate child and one leaf grandchild, with no LangGraph node anywhere.
The source extractor returns no state at all, while the extraction the claim
describes (not ignored, no chosen ancestor, non-ignored leaf descendants as
actions) yields one state, so the claimed characterization is false on the
code. -/
theorem exec_path_not_ancestor_exclusion :
    exec_path_from_trace rootEx7 = [] ∧
    (specExtract rootEx7).length = 1 ∧
    (exec_path_from_trace rootEx7).length ≠ (specExtract rootEx7).length :=
  ⟨rfl, rfl, by decide⟩

/-- Membership in the per-LangGraph inner loop. -/
theorem mem_statesOfLangGraph (addTurn : Bool) (turn : Nat) (cs : List SpanNode)
    (st : StateR) :
    st ∈ statesOfLangGraph addTurn turn cs ↔
      ∃ c ∈ cs, shouldIncludeNode c = true ∧ (get_all_leaves c).isEmpty = false ∧
        st = stateOfSpan addTurn turn c := by
  induction cs with
  | nil =>
    rw [statesOfLangGraph]
    simp
  | cons c rest ih =>
    rw [statesOfLangGraph]
    by_cases hin : shouldIncludeNode c = true
    · rw [if_pos hin]
      by_cases hem : (get_all_leaves c).isEmpty = true
      · rw [if_pos hem, ih]
        constructor
        · rintro ⟨u, hu, h1, h2, h3⟩
          exact ⟨u, List.mem_cons_of_mem _ hu, h1, h2, h3⟩
        · rintro ⟨u, hu, h1, h2, h3⟩
          rcases List.mem_cons.mp hu with h | h
          · rw [h] at h2
            rw [hem] at h2
            cases h2
          · exact ⟨u, h, h1, h2, h3⟩
      · rw [if_neg hem, List.mem_cons, ih]
        rw [Bool.not_eq_true] at hem
        constructor
        · rintro (h | ⟨u, hu, h1, h2, h3⟩)
          · exact ⟨c, List.mem_cons_self _ _, hin, hem, h⟩
          · exact ⟨u, List.mem_cons_of_mem _ hu, h1, h2, h3⟩
        · rintro ⟨u, hu, h1, h2, h3⟩
          rcases List.mem_cons.mp hu with h | h
          · exact Or.inl (by rw [h3, h])
          · exact Or.inr ⟨u, h, h1, h2, h3⟩
    · rw [if_neg hin, ih]
      constructor
      · rintro ⟨u, hu, h1, h2, h3⟩
        exact ⟨u, List.mem_cons_of_mem _ hu, h1, h2, h3⟩
      · rintro ⟨u, hu, h1, h2, h3⟩
        rcases List.mem_cons.mp hu with h | h
        · rw [h] at h1
          exact absurd h1 hin
        · exact ⟨u, h, h1, h2, h3⟩

/-- Membership in the outer loop over the enumerated LangGraph nodes. -/
theorem mem_processLangGraphs (addTurn : Bool) (l : List (Nat × SpanNode)) (st : StateR) :
    st ∈ processLangGraphs addTurn l ↔
      ∃ p ∈ l, ∃ c ∈ p.2.children, shouldIncludeNode c = true ∧
        (get_all_leaves c).isEmpty = false ∧ st = stateOfSpan addTurn p.1 c := by
  induction l with
  | nil =>
    rw [processLangGraphs]
    simp
  | cons p rest ih =>
    obtain ⟨turn, node⟩ := p
    rw [processLangGraphs, List.mem_append, mem_statesOfLangGraph, ih]
    constructor
    · rintro (⟨c, hc, h1, h2, h3⟩ | ⟨q, hq, c, hc, h1, h2, h3⟩)
      · exact ⟨(turn, node), List.mem_cons_self _ _, c, hc, h1, h2, h3⟩
      · exact ⟨q, List.mem_cons_of_mem _ hq, c, hc, h1, h2, h3⟩
    · rintro ⟨q, hq, c, hc, h1, h2, h3⟩
      rcases List.mem_cons.mp hq with h | h
      · exact Or.inl ⟨c, by rw [h] at hc; exact hc, h1, h2, by rw [h] at h3; exact h3⟩
      · exact Or.inr ⟨q, h, c, hc, h1, h2, h3⟩

/-- C7 amended: a state appears in the extracted execution path iff it is
built from a non-ignored child of one of the depth-one LangGraph nodes that
has at least one qualifying action — the actions being exactly the
non-ignored leaf proper descendants of that child — with turn numbers
appended exactly when several LangGraph nodes exist; nodes anywhere else in
the tree never become states. -/
theorem exec_path_characterization (root : SpanNode) (st : StateR) :
    st ∈ exec_path_from_trace root ↔
      ∃ p ∈ enumFrom 1 (root.children.filter (fun n => n.name == "LangGraph")),
        ∃ c ∈ p.2.children, shouldIncludeNode c = true ∧
          (get_all_leaves c).isEmpty = false ∧
          st = stateOfSpan
            (decide (1 < (root.children.filter (fun n => n.name == "LangGraph")).length))
            p.1 c := by
  rw [exec_path_from_trace]
  exact mem_processLangGraphs _ _ st

/-- Witness for the amended C7 characterization: in a tree with one
LangGraph node holding one non-ignored child with one leaf, that child is a
state of the extracted path. -/
theorem exec_path_characterization_witness :
    stateOfSpan false 1 lgState ∈ exec_path_from_trace rootLG :=
  (exec_path_characterization rootLG (stateOfSpan false 1 lgState)).mpr
    ⟨(1, lgNode), List.mem_singleton.mpr rfl,
     lgState, List.mem_singleton.mpr rfl, rfl, rfl, rfl⟩

/-- The distinct-count test of model_post_init agrees with duplicate
freedom. -/
theorem dedup_length_iff (l : List String) : l.dedup.length = l.length ↔ l.Nodup := by
  constructor
  · intro h
    exact List.dedup_eq_self.mp ((List.dedup_sublist l).eq_of_length h)
  · intro h
    rw [List.dedup_eq_self.mpr h]

/-- C5: every ExecutionPath produced by the checked constructor has
duplicate-free span ids across states and actions, and a duplicate id makes
construction fail with the duplicate-span-ids error instead of producing a
value. -/
theorem execPath_nodup_invariant (traceId : String) (states : List EPState) :
    (∀ p, mkExecutionPath traceId states = Except.ok p → (execPathSpanIds p.states).Nodup) ∧
    (¬ (execPathSpanIds states).Nodup →
      mkExecutionPath traceId states = Except.error "Duplicate span IDs in execution fragment") := by
  constructor
  · intro p hp
    by_cases h : (execPathSpanIds states).dedup.length = (execPathSpanIds states).length
    · rw [mkExecutionPath, if_pos h] at hp
      injection hp with h2
      rw [← h2]
      exact (dedup_length_iff _).mp h
    · rw [mkExecutionPath, if_neg h] at hp
      cases hp
  · intro hnd
    rw [mkExecutionPath, if_neg (fun h => hnd ((dedup_length_iff _).mp h))]

/-- Witness for the C5 invariant at a concrete duplicate: a state and its
action sharing the id x make construction fail. -/
theorem execPath_nodup_invariant_witness :
    (¬ (execPathSpanIds dupStates).Nodup) ∧
    mkExecutionPath "t1" dupStates = Except.error "Duplicate span IDs in execution fragment" :=
  ⟨by decide, (execPath_nodup_invariant "t1" dupStates).2 (by decide)⟩

/-- C9: counterexample — a response whose schema string parses to the number
5 is accepted immediately by the INIT retry loop although it is not a
non-empty JSON object, refuting the claim that the loop retries exactly as
long as the schema fails to parse to a non-empty JSON object. -/
theorem initLoop_accepts_nonobject :
    initLoop [respNum] = some (0, respNum) ∧
    Json.isNonEmptyObject (Json.num 5) = false :=
  ⟨rfl, rfl⟩

/-- C9 amended: the INIT loop accepts exactly the first response whose
parsed schema value is truthy (a non-empty object in particular, but also
any other non-empty JSON value), after rejecting every earlier response;
it never substitutes a default, and it accepts nothing on a stream whose
responses are all falsy. -/
theorem initLoop_characterization (resps : List SchemaResponse) :
    (∀ k r, initLoop resps = some (k, r) ↔
      (resps.get? k = some r ∧ r.stateSchema.truthy = true ∧
        ∀ u ∈ resps.take k, u.stateSchema.truthy = false)) ∧
    (initLoop resps = none ↔ ∀ r ∈ resps, r.stateSchema.truthy = false) := by
  induction resps with
  | nil =>
    constructor
    · intro k r
      rw [initLoop]
      constructor
      · intro h
        cases h
      · rintro ⟨h1, _, _⟩
        rw [List.get?_nil] at h1
        cases h1
    · rw [initLoop]
      simp
  | cons r0 rest ih =>
    by_cases h0 : r0.stateSchema.truthy = true
    · constructor
      · intro k r
        rw [initLoop, if_pos h0]
        cases k with
        | zero =>
          constructor
          · intro h
            injection h with h2
            injection h2 with h3 h4
            rw [← h4]
            exact ⟨rfl, h0, by intro u hu; cases hu⟩
          · rintro ⟨h1, _, _⟩
            rw [List.get?_cons_zero] at h1
            injection h1 with h2
            rw [h2]
        | succ j =>
          constructor
          · intro h
            injection h with h2
            injection h2 with h3 h4
            cases h3
          · rintro ⟨h1, h2, h3⟩
            have hr0 : r0.stateSchema.truthy = false :=
              h3 r0 (by rw [List.take_succ_cons]; exact List.mem_cons_self _ _)
            rw [h0] at hr0
            cases hr0
      · rw [initLoop, if_pos h0]
        constructor
        · intro h
          cases h
        · intro h
          have hr0 := h r0 (List.mem_cons_self _ _)
          rw [h0] at hr0
          cases hr0
    · rw [Bool.not_eq_true] at h0
      have hneg : ¬ r0.stateSchema.truthy = true := by
        rw [h0]
        exact Bool.false_ne_true
      constructor
      · intro k r
        rw [initLoop, if_neg hneg]
        cases k with
        | zero =>
          constructor
          · intro h
            obtain ⟨⟨j2, r2⟩, hp1, hp2⟩ := Option.map_eq_some'.mp h
            injection hp2 with h3 h4
            cases h3
          · rintro ⟨h1, h2, _⟩
            rw [List.get?_cons_zero] at h1
            injection h1 with h3
            rw [← h3, h0] at h2
            cases h2
        | succ j =>
          constructor
          · intro h
            obtain ⟨⟨j2, r2⟩, hp1, hp2⟩ := Option.map_eq_some'.mp h
            injection hp2 with h3 h4
            have h4b : r2 = r := h4
            have hj : j2 = j := by omega
            rw [hj, h4b] at hp1
            obtain ⟨g1, g2, g3⟩ := (ih.1 j r).mp hp1
            refine ⟨by rw [List.get?_cons_succ]; exact g1, g2, ?_⟩
            intro u hu
            rw [List.take_succ_cons] at hu
            rcases List.mem_cons.mp hu with h5 | h5
            · rw [h5]
              exact h0
            · exact g3 u h5
          · rintro ⟨h1, h2, h3⟩
            rw [List.get?_cons_succ] at h1
            have hrest : initLoop rest = some (j, r) := by
              apply (ih.1 j r).mpr
              refine ⟨h1, h2, ?_⟩
              intro u hu
              exact h3 u (by rw [List.take_succ_cons]; exact List.mem_cons_of_mem _ hu)
            rw [hrest]
            rfl
      · rw [initLoop, if_neg hneg]
        rw [Option.map_eq_none']
        rw [ih.2]
        constructor
        · intro h
          intro u hu
          rcases List.mem_cons.mp hu with h5 | h5
          · rw [h5]
            exact h0
          · exact h u h5
        · intro h u hu
          exact h u (List.mem_cons_of_mem _ hu)

/-- Witness for the amended C9 characterization at the spec scenario: three
empty-schema responses followed by a valid non-empty-object response make
the loop retry three times and use the fourth response. -/
theorem initLoop_characterization_witness :
    initLoop [emptyResp, emptyResp, emptyResp, validResp] = some (3, validResp) := by
  apply ((initLoop_characterization [emptyResp, emptyResp, emptyResp, validResp]).1
    3 validResp).mpr
  refine ⟨rfl, rfl, ?_⟩
  intro u hu
  rw [show List.take 3 [emptyResp, emptyResp, emptyResp, validResp]
      = [emptyResp, emptyResp, emptyResp] from rfl] at hu
  rcases List.mem_cons.mp hu with h | hu2
  · rw [h]
    rfl
  rcases List.mem_cons.mp hu2 with h | hu3
  · rw [h]
    rfl
  rcases List.mem_cons.mp hu3 with h | hu4
  · rw [h]
    rfl
  · cases hu4

end AgentContracts
